import Mathlib

/-!
Verification of the streaming aggregation engine of ddu-source-tri_source
(denops/@ddu-sources/tri_source.ts), shallowly embedded in Lean.

The embedding mirrors the source file function by function:
* makeItem / normalizePath           (helpers)
* gatherBuffer                       (buffer sub-source)
* gatherMr                           (MRU sub-source; the external dispatch
                                      response is an explicit input)
* walkFiles / readStat               (recursive walker, as a pure recursion
                                      over an observed filesystem tree)
* Source.gather                      (aggregator: gatherRun)

External collaborators (denops calls, Deno filesystem, @std/path) are
modelled as inputs or small pure functions, noted at each definition.
Cancellation is modelled by a step counter: the AbortController signal
becomes (permanently) aborted from a given step on, and the walker
consults it before every directory-entry read, exactly where the
abortable(Deno.readDir(dir), signal) wrapper does.
-/

namespace TriSource

/-- Provenance of an item: which sub-source constructed it.  This is
instrumentation recording the call site (the tag argument of makeItem for
the buffer and MRU sub-sources, and the walker item literal for walk). -/
inductive Origin where
  | buf
  | mru
  | walk
deriving DecidableEq, Repr

/-- One candidate result, mirroring Item<ActionData> as this source fills it:
word, optional display, optional highlight name, and the action payload
(path, isDirectory).  Numeric highlight fields (col, width) and the
hl_group are presentational constants derived from the same tag and are
omitted. -/
structure Item where
  word : String
  display : Option String
  hlName : Option String
  path : String
  isDirectory : Bool
  origin : Origin
deriving DecidableEq, Repr

abbrev Seen := List String

/-- JS String.prototype.includes: the second string occurs contiguously
somewhere in the first (used at line 244, abspath.includes(realPath)). -/
def occursIn (needle hay : List Char) : Bool :=
  needle.isPrefixOf hay ||
    match hay with
    | [] => false
    | _ :: t => occursIn needle t

def jsIncludes (s sub : String) : Bool :=
  occursIn sub.data s.data

/-- normalizePath (line 90): strip every trailing "/" for dedup comparison. -/
def normalizePath (p : String) : String :=
  String.mk ((p.data.reverse.dropWhile (· == '/')).reverse)

/-- The key a delivered item is deduplicated under. -/
def itemKey (it : Item) : String :=
  normalizePath it.path

/-- JS String(n).padStart(2, " "). -/
def padStart2 (s : String) : String :=
  if s.length ≥ 2 then s else String.mk (List.replicate (2 - s.length) ' ') ++ s

/-- Models the external @std/path relative(base, p) for the cases this
program exercises (p lying under base); no claim depends on the returned
text, which only feeds the word field. -/
def relativePath (base p : String) : String :=
  if base = p then ""
  else if (base ++ "/").data.isPrefixOf p.data then
    String.mk (p.data.drop (base.data.length + 1))
  else ".." ++ "/" ++ p

/-- makeItem (line 64): build one item; when showPrefix is set the display
gets the "[tag] " marker and the highlight name ddu_tri_source_tag. -/
def makeItem (word path : String) (tag : String) (showPrefix isDirectory : Bool)
    (origin : Origin) : Item :=
  { word := word
    display := if showPrefix then some ("[" ++ tag ++ "] " ++ word) else none
    hlName := if showPrefix then some ("ddu_tri_source_" ++ tag) else none
    path := path
    isDirectory := isDirectory
    origin := origin }

/-! ## Buffer sub-source (gatherBuffer, lines 100-160) -/

/-- One entry of the getbufinfo response; buftype records the answer of
the getbufvar(bufnr, "&buftype") call for this buffer (the source coerces
a non-string answer to "", so a string input is general). -/
structure BufInfo where
  bufnr : Int
  changed : Bool
  lastused : Int
  listed : Bool
  name : String
  buftype : String
deriving DecidableEq, Repr

/-- Response of the ddu#source#tri_source#getbufinfo call. -/
structure GetBufInfoReturn where
  currentDir : String
  alternateBufNr : Int
  buffers : List BufInfo
deriving DecidableEq, Repr

/-- The sort comparator of gatherBuffer (lines 114-121), as an integer:
under "desc" the current buffer sorts last and others descend by lastused;
otherwise ascend by lastused. -/
def bufCmp (orderby : String) (bufNr : Int) (a b : BufInfo) : Int :=
  if orderby = "desc" then
    if a.bufnr = bufNr then 1
    else if b.bufnr = bufNr then -1
    else b.lastused - a.lastused
  else a.lastused - b.lastused

/-- Stable insertion used to model the (stable) Array.prototype.sort. -/
def insertSorted (le : BufInfo → BufInfo → Bool) (x : BufInfo) :
    List BufInfo → List BufInfo
  | [] => [x]
  | y :: ys => if le x y then x :: y :: ys else y :: insertSorted le x ys

/-- Stable sort modelling Array.prototype.sort with the given comparator. -/
def sortByCmp (le : BufInfo → BufInfo → Bool) : List BufInfo → List BufInfo
  | [] => []
  | x :: xs => insertSorted le x (sortByCmp le xs)

def sortBuffers (orderby : String) (bufNr : Int) (l : List BufInfo) : List BufInfo :=
  sortByCmp (fun a b => bufCmp orderby bufNr a b ≤ 0) l

/-- The word built for one buffer item (lines 144-152). -/
def bufWord (bufNr altNr : Int) (currentDir : String) (b : BufInfo) : String :=
  let curMarker := if bufNr = b.bufnr then "%" else ""
  let altMarker := if altNr = b.bufnr then "#" else ""
  let modMarker := if b.changed then "+" else " "
  let bufnrStr := padStart2 (toString b.bufnr)
  let bufMark := padStart2 (curMarker ++ altMarker)
  let relPath := relativePath currentDir b.name
  let displayName := if "..".data.isPrefixOf relPath.data then b.name else relPath
  bufnrStr ++ " " ++ bufMark ++ " " ++ modMarker ++ " " ++ displayName

/-- The loop body of gatherBuffer (lines 125-157): skip unnamed and
terminal buffers, then the dedup registry check, then push the item. -/
def bufLoop (bufNr altNr : Int) (currentDir : String) (dedup showPrefix : Bool)
    (seen : Seen) : List BufInfo → List Item × Seen
  | [] => ([], seen)
  | b :: rest =>
    if b.name = "" then bufLoop bufNr altNr currentDir dedup showPrefix seen rest
    else if b.buftype = "terminal" then
      bufLoop bufNr altNr currentDir dedup showPrefix seen rest
    else if dedup ∧ normalizePath b.name ∈ seen then
      bufLoop bufNr altNr currentDir dedup showPrefix seen rest
    else
      let seen2 := if dedup then normalizePath b.name :: seen else seen
      let it := makeItem (bufWord bufNr altNr currentDir b) b.name "buf"
        showPrefix false .buf
      let r := bufLoop bufNr altNr currentDir dedup showPrefix seen2 rest
      (it :: r.1, r.2)

/-- gatherBuffer (line 100): filter listed buffers, sort, then the loop. -/
def gatherBuffer (info : GetBufInfoReturn) (bufNr : Int) (orderby : String)
    (seen : Seen) (dedup showPrefix : Bool) : List Item × Seen :=
  bufLoop bufNr info.alternateBufNr info.currentDir dedup showPrefix seen
    (sortBuffers orderby bufNr (info.buffers.filter (·.listed)))

/-- The buffers the loop does not skip (named, non-terminal): exactly the
candidates that participate in dedup, in loop order. -/
def bufCandList : List BufInfo → List BufInfo
  | [] => []
  | b :: rest =>
    if b.name = "" then bufCandList rest
    else if b.buftype = "terminal" then bufCandList rest
    else b :: bufCandList rest

def bufCandidates (info : GetBufInfoReturn) (bufNr : Int) (orderby : String) :
    List BufInfo :=
  bufCandList (sortBuffers orderby bufNr (info.buffers.filter (·.listed)))

/-- The dedup keys the buffer sub-source submits, in order. -/
def bufCandKeys (info : GetBufInfoReturn) (bufNr : Int) (orderby : String) :
    List String :=
  (bufCandidates info bufNr orderby).map (fun b => normalizePath b.name)

/-! ## MRU sub-source (gatherMr, lines 166-207) -/

/-- The deadline passed to the vim-mr dispatch call, in milliseconds. -/
def mrTimeoutMs : Nat := 1000

/-- isDir = new Set(["mrr", "mrd"]).has(mrKind). -/
def mrIsDirKind (k : String) : Bool :=
  k == "mrr" || k == "mrd"

/-- The item loop of gatherMr (lines 196-205). -/
def mrLoop (mrKind : String) (dedup showPrefix : Bool) (seen : Seen) :
    List String → List Item × Seen
  | [] => ([], seen)
  | p :: rest =>
    let norm := normalizePath p
    if dedup ∧ norm ∈ seen then mrLoop mrKind dedup showPrefix seen rest
    else
      let seen2 := if dedup then norm :: seen else seen
      let it := makeItem p p mrKind showPrefix (mrIsDirKind mrKind) .mru
      let r := mrLoop mrKind dedup showPrefix seen2 rest
      (it :: r.1, r.2)

/-- gatherMr (line 166).  The external dispatch is modelled by the response
argument: some paths for a successful, well-typed reply within the
deadline; none when the call times out, fails, or returns anything that is
not a list of strings (the ensure throws in every such case).  The Bool of
the result records whether the catch branch logged its diagnostic. -/
def gatherMr (mrKind : String) (seen : Seen) (dedup showPrefix : Bool)
    (response : Option (List String)) : (List Item × Seen) × Bool :=
  match response with
  | none => (([], seen), true)
  | some result => (mrLoop mrKind dedup showPrefix seen result, false)

def mrKeysOf (response : Option (List String)) : List String :=
  (response.getD []).map normalizePath

/-! ## Recursive walker (walkFiles / readStat, lines 213-278) -/

/-- The fields of Deno.FileInfo this source reads. -/
structure StatInfo where
  isDirectory : Bool
  isSymlink : Bool
deriving DecidableEq, Repr

/-- What the filesystem collaborator answers about one directory entry:
the Deno.lstat result (none when it throws), the Deno.stat result that
follows symlinks (none when it throws), and the Deno.realPath result. -/
structure EntryMeta where
  lstat : Option StatInfo
  statFollowed : Option StatInfo
  realPath : String
deriving DecidableEq, Repr

mutual
/-- A directory's contents as observed through Deno.readDir: the entries
listed before the iteration ends, then an optional failure terminating the
listing (some true = PermissionDenied, some false = any other error;
none = normal exhaustion). -/
inductive FSTree where
  | node (entries : FSEntries) (tailErr : Option Bool)

/-- The successfully listed entries, each carrying its name, the observed
metadata, and the tree reached by reading it as a directory. -/
inductive FSEntries where
  | nil
  | cons (name : String) (meta : EntryMeta) (sub : FSTree) (rest : FSEntries)
end

/-- readStat (line 265): lstat, then when the entry is a symlink and
expansion is requested a follow-through stat tagged isSymlink; null on any
failure. -/
def readStat (m : EntryMeta) (expandSymbolicLink : Bool) : Option StatInfo :=
  match m.lstat with
  | none => none
  | some l =>
    if l.isSymlink && expandSymbolicLink then
      match m.statFollowed with
      | none => none
      | some s => some { s with isSymlink := true }
    else some l

inductive Outcome where
  | done
  | aborted
  | err
deriving DecidableEq, Repr

/-- The parameters walkFiles closes over, plus the cancellation signal:
the signal is aborted from step abortAt on (none = never canceled),
permanently, matching the one-way AbortController transition. -/
structure WalkCfg where
  root : String
  ignored : List String
  chunkSize : Nat
  expand : Bool
  abortAt : Option Nat
deriving DecidableEq, Repr

def abortedSig (cfg : WalkCfg) (steps : Nat) : Bool :=
  match cfg.abortAt with
  | none => false
  | some k => k ≤ steps

/-- Models the external @std/path join(dir, name) on the separator-free
entry names readDir yields. -/
def joinPath (dir name : String) : String :=
  dir ++ "/" ++ name

/-- The item literal pushed by the walker (lines 232-234). -/
def mkRecItem (root abspath : String) : Item :=
  { word := relativePath root abspath
    display := none
    hlName := none
    path := abspath
    isDirectory := false
    origin := .walk }

mutual
/-- One activation of the inner generator of walkFiles (line 220) on a
directory: its own fresh chunk, then the entry loop.  Returns the batches
yielded, how the activation ended, and the step counter after it. -/
def walkDir (cfg : WalkCfg) (dir : String) (t : FSTree) (steps : Nat) :
    List (List Item) × Outcome × Nat :=
  match t with
  | .node entries tailErr => walkEntries cfg dir entries tailErr [] steps

/-- The entry loop (lines 225-254).  Before every entry read (and before
the terminating read) the abortable wrapper rejects when the signal is
aborted; the rejection propagates like any non-PermissionDenied error, so
the pending chunk is lost and no further batch is yielded.  A
PermissionDenied raised by the listing ends this activation normally
(catch, line 256); any other listing failure ends it with err, which every
enclosing activation re-throws. -/
def walkEntries (cfg : WalkCfg) (dir : String) (es : FSEntries)
    (tailErr : Option Bool) (chunk : List Item) (steps : Nat) :
    List (List Item) × Outcome × Nat :=
  match es with
  | .nil =>
    if abortedSig cfg steps then ([], .aborted, steps + 1)
    else
      match tailErr with
      | some true => ([], .done, steps + 1)
      | some false => ([], .err, steps + 1)
      | none => (if chunk.isEmpty then [] else [chunk], .done, steps + 1)
  | .cons name meta sub rest =>
    if abortedSig cfg steps then ([], .aborted, steps + 1)
    else
      let abspath := joinPath dir name
      match readStat meta cfg.expand with
      | none => walkEntries cfg dir rest tailErr chunk (steps + 1)
      | some stat =>
        if !stat.isDirectory then
          let chunk2 := chunk ++ [mkRecItem cfg.root abspath]
          if chunk2.length ≥ cfg.chunkSize then
            let r := walkEntries cfg dir rest tailErr [] (steps + 1)
            (chunk2 :: r.1, r.2)
          else walkEntries cfg dir rest tailErr chunk2 (steps + 1)
        else if name ∈ cfg.ignored then
          walkEntries cfg dir rest tailErr chunk (steps + 1)
        else if stat.isSymlink && stat.isDirectory &&
            jsIncludes abspath meta.realPath then
          walkEntries cfg dir rest tailErr chunk (steps + 1)
        else
          let r := walkDir cfg abspath sub (steps + 1)
          match r.2.1 with
          | .done =>
            let r2 := walkEntries cfg dir rest tailErr chunk r.2.2
            (r.1 ++ r2.1, r2.2)
          | oc => (r.1, oc, r.2.2)
end

/-! ## Aggregator (Source.gather, lines 302-423) -/

/-- The source parameters (lines 31-42). -/
structure Params where
  enableBuffer : Bool
  enableMr : Bool
  enableFileRec : Bool
  ignoredDirectories : List String
  chunkSize : Nat
  expandSymbolicLink : Bool
  mrKind : String
  bufferOrderby : String
  dedup : Bool
  showSourcePrefix : Bool
deriving DecidableEq, Repr

/-- The defaults of Source.params (line 425). -/
def defaultParams : Params :=
  { enableBuffer := true
    enableMr := true
    enableFileRec := true
    ignoredDirectories := [".git"]
    chunkSize := 1000
    expandSymbolicLink := false
    mrKind := "mru"
    bufferOrderby := "desc"
    dedup := true
    showSourcePrefix := true }

/-- Everything one gather run observes from outside: the getbufinfo
response, the context buffer number, the vim-mr response, the filesystem
under the resolved root, the resolved root path, the step at which the
consumer's cancel aborts the shared signal, and the platform names of the
errors that can reach the top-level catch (the abort reason of a bare
ReadableStream cancel is a DOMException named "AbortError"; fsErrName is
the name of a fatal filesystem error). -/
structure RunInput where
  bufinfo : GetBufInfoReturn
  ctxBufNr : Int
  mrResponse : Option (List String)
  tree : FSTree
  rootPath : String
  abortAt : Option Nat
  abortErrName : String
  fsErrName : String

/-- Platform default: AbortController.abort() without an argument sets the
signal's reason to a DOMException whose name is "AbortError". -/
def defaultAbortErrorName : String := "AbortError"

/-- The top-level catch of Source.gather (line 409) swallows an error
exactly when it is an Error whose name contains "AbortReason"; every other
error is reported through console.error. -/
def isIgnoredAbortName (n : String) : Bool :=
  jsIncludes n "AbortReason"

/-- The dedup filter applied to one walker chunk (lines 374-381): an item
with an empty action path is kept without recording; otherwise the
normalized path is checked against and added to the registry. -/
def recFilterGo (seen : Seen) : List Item → List Item × Seen
  | [] => ([], seen)
  | it :: rest =>
    if it.path = "" then
      let r := recFilterGo seen rest
      (it :: r.1, r.2)
    else
      let p := normalizePath it.path
      if p ∈ seen then recFilterGo seen rest
      else
        let r := recFilterGo (p :: seen) rest
        (it :: r.1, r.2)

/-- filtered = dedup ? chunk.filter(...) : chunk (line 373). -/
def recFilter (dedup : Bool) (seen : Seen) (chunk : List Item) :
    List Item × Seen :=
  if dedup then recFilterGo seen chunk else (chunk, seen)

/-- The in-place decoration of a filtered walker item when
showSourcePrefix is set (lines 384-394). -/
def decorateRec (it : Item) : Item :=
  { it with display := some ("[rec] " ++ it.word)
            hlName := some "ddu_tri_source_rec" }

/-- The consumer loop over walker chunks (lines 364-403): filter, decorate,
accumulate into pendingItems, and flush once the current enqueueSize is
reached, the threshold becoming 10 * chunkSize from the first flush on.
Returns (enqueued batches, registry, leftover pending, final threshold). -/
def recLoopAux (chunkSize : Nat) (dedup showPrefix : Bool) :
    List (List Item) → Seen → List Item → Nat →
    List (List Item) × Seen × List Item × Nat
  | [], seen, pending, esz => ([], seen, pending, esz)
  | c :: cs, seen, pending, esz =>
    let f := recFilter dedup seen c
    let filtered := if showPrefix then f.1.map decorateRec else f.1
    let pending2 := pending ++ filtered
    if pending2.length ≥ esz then
      let r := recLoopAux chunkSize dedup showPrefix cs f.2 [] (10 * chunkSize)
      (pending2 :: r.1, r.2)
    else recLoopAux chunkSize dedup showPrefix cs f.2 pending2 esz

/-- The whole file_rec stage of gather: the loop over every chunk the
walker yielded, then — only when the walk completed normally — the final
unconditional flush of a non-empty leftover (lines 404-406; a thrown
error or abort skips it). -/
def gatherRec (chunkSize : Nat) (dedup showPrefix : Bool) (seen : Seen)
    (wbatches : List (List Item)) (oc : Outcome) : List (List Item) × Seen :=
  let r := recLoopAux chunkSize dedup showPrefix wbatches seen [] chunkSize
  match oc with
  | .done => (r.1 ++ (if r.2.2.1.isEmpty then [] else [r.2.2.1]), r.2.1)
  | _ => (r.1, r.2.1)

/-- What one gather run delivers and observably does. -/
structure RunOutput where
  batches : List (List Item)
  seen : Seen
  mrLogged : Bool
  walkOutcome : Outcome
  errorLogged : Bool
deriving DecidableEq, Repr

/-- Source.gather (lines 302-423) as one sequential run: the three
sub-sources in the fixed order buffer, MRU, file_rec, sharing the seen
registry; a non-empty buffer or MRU result is enqueued as one batch; the
walker stream is consumed through gatherRec.  errorLogged records whether
the top-level catch called console.error: it does for every propagated
error whose name does not contain "AbortReason" — including the abort
rejection produced by a consumer cancel. -/
def gatherRun (P : Params) (inp : RunInput) : RunOutput :=
  let seen0 : Seen := []
  let bufR :=
    if P.enableBuffer then
      gatherBuffer inp.bufinfo inp.ctxBufNr P.bufferOrderby seen0 P.dedup
        P.showSourcePrefix
    else ([], seen0)
  let bufBatches := if bufR.1.isEmpty then [] else [bufR.1]
  let mrR :=
    if P.enableMr then
      gatherMr P.mrKind bufR.2 P.dedup P.showSourcePrefix inp.mrResponse
    else (([], bufR.2), false)
  let mrBatches := if mrR.1.1.isEmpty then [] else [mrR.1.1]
  if P.enableFileRec then
    let cfg : WalkCfg :=
      { root := inp.rootPath
        ignored := P.ignoredDirectories
        chunkSize := P.chunkSize
        expand := P.expandSymbolicLink
        abortAt := inp.abortAt }
    let w := walkDir cfg inp.rootPath inp.tree 0
    let recR := gatherRec P.chunkSize P.dedup P.showSourcePrefix mrR.1.2 w.1 w.2.1
    { batches := bufBatches ++ mrBatches ++ recR.1
      seen := recR.2
      mrLogged := mrR.2
      walkOutcome := w.2.1
      errorLogged :=
        match w.2.1 with
        | .done => false
        | .aborted => !isIgnoredAbortName inp.abortErrName
        | .err => !isIgnoredAbortName inp.fsErrName }
  else
    { batches := bufBatches ++ mrBatches
      seen := mrR.1.2
      mrLogged := mrR.2
      walkOutcome := .done
      errorLogged := false }

/-! ## Spec-side chunk emitter (for the refinement claim C5) -/

/-- Modelled from the spec: the Chunk Emitter policy of section 4.2 — the
first emission threshold equals the configured base chunk size, every
emission after the first uses the threshold raised by the fixed ×10
multiplier, buffers accumulate across walker batches until the current
threshold is met, and any remaining buffered items are flushed
unconditionally when the walk ends. -/
def emitterSpecGo (base : Nat) (emitted : Bool) (pending : List Item) :
    List (List Item) → List (List Item)
  | [] => if pending.isEmpty then [] else [pending]
  | b :: bs =>
    let pending2 := pending ++ b
    let threshold := if emitted then 10 * base else base
    if pending2.length ≥ threshold then pending2 :: emitterSpecGo base true [] bs
    else emitterSpecGo base emitted pending2 bs

/-- Modelled from the spec: the Chunk Emitter applied to the stream of
walker batches from a walk that ran to completion. -/
def emitterSpec (base : Nat) (bs : List (List Item)) : List (List Item) :=
  emitterSpecGo base false [] bs

/-! ## The registry discipline shared by the three dedup sites -/

/-- The keys a dedup-checking fold lets through: first occurrences not yet
in the registry. -/
def newKeys (seen : Seen) : List String → List String
  | [] => []
  | k :: ks => if k ∈ seen then newKeys seen ks else k :: newKeys (k :: seen) ks

/-- The registry after a dedup-checking fold over the given keys. -/
def addKeys (seen : Seen) : List String → Seen
  | [] => seen
  | k :: ks => if k ∈ seen then addKeys seen ks else addKeys (k :: seen) ks

theorem mem_addKeys {seen : Seen} {ks : List String} {k : String} :
    k ∈ addKeys seen ks ↔ k ∈ seen ∨ k ∈ ks := by
  induction ks generalizing seen with
  | nil => simp [addKeys]
  | cons a ks ih =>
    by_cases ha : a ∈ seen
    · simp only [addKeys, if_pos ha, ih, List.mem_cons]
      constructor
      · rintro (h | h)
        · exact Or.inl h
        · exact Or.inr (Or.inr h)
      · rintro (h | h | h)
        · exact Or.inl h
        · exact Or.inl (h ▸ ha)
        · exact Or.inr h
    · simp only [addKeys, if_neg ha, ih, List.mem_cons]
      tauto

theorem mem_of_mem_newKeys {seen : Seen} {ks : List String} {k : String}
    (h : k ∈ newKeys seen ks) : k ∈ ks := by
  induction ks generalizing seen with
  | nil => simp [newKeys] at h
  | cons a ks ih =>
    by_cases ha : a ∈ seen
    · simp only [newKeys, if_pos ha] at h
      exact List.mem_cons_of_mem _ (ih h)
    · simp only [newKeys, if_neg ha, List.mem_cons] at h
      rcases h with h | h
      · exact h ▸ List.mem_cons_self _ _
      · exact List.mem_cons_of_mem _ (ih h)

theorem not_mem_seen_of_mem_newKeys {seen : Seen} {ks : List String} {k : String}
    (h : k ∈ newKeys seen ks) : k ∉ seen := by
  induction ks generalizing seen with
  | nil => simp [newKeys] at h
  | cons a ks ih =>
    by_cases ha : a ∈ seen
    · simp only [newKeys, if_pos ha] at h
      exact ih h
    · simp only [newKeys, if_neg ha, List.mem_cons] at h
      rcases h with h | h
      · exact h ▸ ha
      · intro hk
        exact ih h (List.mem_cons_of_mem _ hk)

theorem newKeys_nodup (seen : Seen) (ks : List String) : (newKeys seen ks).Nodup := by
  induction ks generalizing seen with
  | nil => simp [newKeys]
  | cons a ks ih =>
    by_cases ha : a ∈ seen
    · simpa [newKeys, if_pos ha] using ih seen
    · simp only [newKeys, if_neg ha]
      refine List.nodup_cons.mpr ⟨?_, ih (a :: seen)⟩
      intro hmem
      exact not_mem_seen_of_mem_newKeys hmem (List.mem_cons_self _ _)

theorem newKeys_append (seen : Seen) (a b : List String) :
    newKeys seen (a ++ b) = newKeys seen a ++ newKeys (addKeys seen a) b := by
  induction a generalizing seen with
  | nil => simp [newKeys, addKeys]
  | cons k a ih =>
    by_cases hk : k ∈ seen
    · simp [newKeys, addKeys, if_pos hk, ih]
    · simp [newKeys, addKeys, if_neg hk, ih]

theorem addKeys_append (seen : Seen) (a b : List String) :
    addKeys seen (a ++ b) = addKeys (addKeys seen a) b := by
  induction a generalizing seen with
  | nil => simp [addKeys]
  | cons k a ih =>
    by_cases hk : k ∈ seen
    · simp [addKeys, if_pos hk, ih]
    · simp [addKeys, if_neg hk, ih]

/-! ## Characterizations of the three dedup sites -/

theorem itemKey_makeItem (word path tag : String) (sp d : Bool) (o : Origin) :
    itemKey (makeItem word path tag sp d o) = normalizePath path := rfl

/-- Keys let through and registry written by the buffer loop with dedup on. -/
theorem bufLoop_true_spec (bufNr altNr : Int) (cd : String) (sp : Bool)
    (seen : Seen) (l : List BufInfo) :
    ((bufLoop bufNr altNr cd true sp seen l).1.map itemKey =
        newKeys seen ((bufCandList l).map (fun b => normalizePath b.name))) ∧
      (bufLoop bufNr altNr cd true sp seen l).2 =
        addKeys seen ((bufCandList l).map (fun b => normalizePath b.name)) := by
  induction l generalizing seen with
  | nil => simp [bufLoop, bufCandList, newKeys, addKeys]
  | cons b rest ih =>
    by_cases hn : b.name = ""
    · simpa [bufLoop, bufCandList, hn] using ih seen
    · by_cases ht : b.buftype = "terminal"
      · simpa [bufLoop, bufCandList, hn, ht] using ih seen
      · by_cases hs : normalizePath b.name ∈ seen
        · simpa [bufLoop, bufCandList, hn, ht, hs, newKeys, addKeys] using ih seen
        · simpa [bufLoop, bufCandList, hn, ht, hs, newKeys, addKeys, itemKey_makeItem]
            using ih (normalizePath b.name :: seen)

/-- With dedup off the buffer loop keeps every candidate and writes nothing. -/
theorem bufLoop_false_spec (bufNr altNr : Int) (cd : String) (sp : Bool)
    (seen : Seen) (l : List BufInfo) :
    ((bufLoop bufNr altNr cd false sp seen l).1.map itemKey =
        (bufCandList l).map (fun b => normalizePath b.name)) ∧
      (bufLoop bufNr altNr cd false sp seen l).2 = seen := by
  induction l generalizing seen with
  | nil => simp [bufLoop, bufCandList]
  | cons b rest ih =>
    by_cases hn : b.name = ""
    · simpa [bufLoop, bufCandList, hn] using ih seen
    · by_cases ht : b.buftype = "terminal"
      · simpa [bufLoop, bufCandList, hn, ht] using ih seen
      · simpa [bufLoop, bufCandList, hn, ht, itemKey_makeItem] using ih seen

theorem bufLoop_origin (bufNr altNr : Int) (cd : String) (dedup sp : Bool)
    (seen : Seen) (l : List BufInfo) :
    ∀ it ∈ (bufLoop bufNr altNr cd dedup sp seen l).1, it.origin = .buf := by
  induction l generalizing seen with
  | nil => simp [bufLoop]
  | cons b rest ih =>
    intro it hit
    by_cases hn : b.name = ""
    · exact ih seen it (by simpa [bufLoop, hn] using hit)
    · by_cases ht : b.buftype = "terminal"
      · exact ih seen it (by simpa [bufLoop, hn, ht] using hit)
      · by_cases hd : dedup ∧ normalizePath b.name ∈ seen
        · exact ih seen it (by simpa [bufLoop, hn, ht, hd] using hit)
        · simp only [bufLoop, if_neg hn, if_neg ht, if_neg hd, List.mem_cons] at hit
          rcases hit with h | h
          · subst h; rfl
          · exact ih _ it h

/-- Keys let through and registry written by the MRU loop with dedup on. -/
theorem mrLoop_true_spec (mrKind : String) (sp : Bool) (seen : Seen)
    (l : List String) :
    ((mrLoop mrKind true sp seen l).1.map itemKey =
        newKeys seen (l.map normalizePath)) ∧
      (mrLoop mrKind true sp seen l).2 = addKeys seen (l.map normalizePath) := by
  induction l generalizing seen with
  | nil => simp [mrLoop, newKeys, addKeys]
  | cons p rest ih =>
    by_cases hs : normalizePath p ∈ seen
    · simpa [mrLoop, hs, newKeys, addKeys] using ih seen
    · simpa [mrLoop, hs, newKeys, addKeys, itemKey_makeItem]
        using ih (normalizePath p :: seen)

/-- With dedup off the MRU loop keeps every path and writes nothing. -/
theorem mrLoop_false_spec (mrKind : String) (sp : Bool) (seen : Seen)
    (l : List String) :
    ((mrLoop mrKind false sp seen l).1.map itemKey = l.map normalizePath) ∧
      (mrLoop mrKind false sp seen l).2 = seen := by
  induction l generalizing seen with
  | nil => simp [mrLoop]
  | cons p rest ih =>
    simpa [mrLoop, itemKey_makeItem] using ih seen

theorem mrLoop_origin (mrKind : String) (dedup sp : Bool) (seen : Seen)
    (l : List String) :
    ∀ it ∈ (mrLoop mrKind dedup sp seen l).1, it.origin = .mru := by
  induction l generalizing seen with
  | nil => simp [mrLoop]
  | cons p rest ih =>
    intro it hit
    by_cases hd : dedup ∧ normalizePath p ∈ seen
    · exact ih seen it (by simpa [mrLoop, hd] using hit)
    · simp only [mrLoop, if_neg hd, List.mem_cons] at hit
      rcases hit with h | h
      · subst h; rfl
      · exact ih _ it h

/-- The walker-chunk dedup filter on chunks of non-empty paths: first-seen
keys pass, the rest are dropped, every passed key is recorded. -/
theorem recFilterGo_spec (seen : Seen) (l : List Item)
    (h : ∀ it ∈ l, it.path ≠ "") :
    ((recFilterGo seen l).1.map itemKey = newKeys seen (l.map itemKey)) ∧
      (recFilterGo seen l).2 = addKeys seen (l.map itemKey) ∧
      ∀ it ∈ (recFilterGo seen l).1, it ∈ l := by
  induction l generalizing seen with
  | nil => simp [recFilterGo, newKeys, addKeys]
  | cons it rest ih =>
    have hp : it.path ≠ "" := h it (List.mem_cons_self _ _)
    have hrest : ∀ x ∈ rest, x.path ≠ "" := fun x hx => h x (List.mem_cons_of_mem _ hx)
    by_cases hs : normalizePath it.path ∈ seen
    · have := ih seen hrest
      refine ⟨?_, ?_, ?_⟩
      · simpa [recFilterGo, hp, hs, newKeys, itemKey] using this.1
      · simpa [recFilterGo, hp, hs, addKeys, itemKey] using this.2.1
      · intro x hx
        refine List.mem_cons_of_mem _ (this.2.2 x ?_)
        simpa [recFilterGo, hp, hs] using hx
    · have := ih (normalizePath it.path :: seen) hrest
      refine ⟨?_, ?_, ?_⟩
      · simpa [recFilterGo, hp, hs, newKeys, itemKey] using this.1
      · simpa [recFilterGo, hp, hs, addKeys, itemKey] using this.2.1
      · intro x hx
        simp only [recFilterGo, if_neg hp, if_neg hs, List.mem_cons] at hx
        rcases hx with hx | hx
        · exact hx ▸ List.mem_cons_self _ _
        · exact List.mem_cons_of_mem _ (this.2.2 x hx)

/-- The per-batch filtered and decorated chunks the consumer loop
accumulates, with the registry threaded through them. -/
def chainBatches (dedup sp : Bool) (seen : Seen) : List (List Item) → List (List Item)
  | [] => []
  | c :: cs =>
    let f := recFilter dedup seen c
    (if sp then f.1.map decorateRec else f.1) :: chainBatches dedup sp f.2 cs

/-- The registry after filtering a stream of walker chunks. -/
def chainSeen (dedup : Bool) (seen : Seen) : List (List Item) → Seen
  | [] => seen
  | c :: cs => chainSeen dedup (recFilter dedup seen c).2 cs

theorem recLoopAux_chain (base : Nat) (dedup sp : Bool) (cs : List (List Item))
    (seen : Seen) (pending : List Item) (esz : Nat) :
    ((recLoopAux base dedup sp cs seen pending esz).1.flatten ++
        (recLoopAux base dedup sp cs seen pending esz).2.2.1 =
      pending ++ (chainBatches dedup sp seen cs).flatten) ∧
      (recLoopAux base dedup sp cs seen pending esz).2.1 = chainSeen dedup seen cs := by
  induction cs generalizing seen pending esz with
  | nil => simp [recLoopAux, chainBatches, chainSeen]
  | cons c cs ih =>
    simp only [recLoopAux, chainBatches, chainSeen]
    set f := recFilter dedup seen c with hf
    set filtered := if sp then f.1.map decorateRec else f.1 with hfil
    by_cases hge : (pending ++ filtered).length ≥ esz
    · have := ih f.2 [] (10 * base)
      simp only [if_pos hge, List.flatten_cons]
      constructor
      · rw [List.append_assoc, this.1]
        simp
      · exact this.2
    · have := ih f.2 (pending ++ filtered) esz
      simp only [if_neg hge, List.flatten_cons]
      constructor
      · rw [this.1]
        simp
      · exact this.2

/-- Every batch the consumer loop enqueues is at least as long as the
threshold in force, which never drops below 1 when the base is positive. -/
theorem recLoopAux_nonempty (base : Nat) (dedup sp : Bool) (cs : List (List Item))
    (seen : Seen) (pending : List Item) (esz : Nat) (hbase : 1 ≤ base)
    (hesz : 1 ≤ esz) :
    ∀ b ∈ (recLoopAux base dedup sp cs seen pending esz).1, b ≠ [] := by
  induction cs generalizing seen pending esz with
  | nil => simp [recLoopAux]
  | cons c cs ih =>
    simp only [recLoopAux]
    set f := recFilter dedup seen c with hf
    set filtered := if sp then f.1.map decorateRec else f.1 with hfil
    by_cases hge : (pending ++ filtered).length ≥ esz
    · simp only [if_pos hge, List.mem_cons]
      rintro b (rfl | hb)
      · intro hemp
        rw [hemp] at hge
        simp at hge
        omega
      · exact ih f.2 [] (10 * base) (by omega) b hb
    · simp only [if_neg hge]
      exact ih f.2 (pending ++ filtered) esz hesz

/-- The consumer loop, followed by the final flush of a completed walk,
is exactly the spec's Chunk Emitter run on the filtered chunk stream. -/
theorem recLoopAux_emitter (base : Nat) (dedup sp : Bool) (cs : List (List Item))
    (seen : Seen) (pending : List Item) (e : Bool) :
    (recLoopAux base dedup sp cs seen pending (if e then 10 * base else base)).1 ++
        (if (recLoopAux base dedup sp cs seen pending
              (if e then 10 * base else base)).2.2.1.isEmpty then []
         else [(recLoopAux base dedup sp cs seen pending
              (if e then 10 * base else base)).2.2.1]) =
      emitterSpecGo base e pending (chainBatches dedup sp seen cs) := by
  induction cs generalizing seen pending e with
  | nil => simp [recLoopAux, chainBatches, emitterSpecGo]
  | cons c cs ih =>
    simp only [recLoopAux, chainBatches, emitterSpecGo]
    set f := recFilter dedup seen c with hf
    set filtered := if sp then f.1.map decorateRec else f.1 with hfil
    by_cases hge : (pending ++ filtered).length ≥ (if e then 10 * base else base)
    · simp only [if_pos hge]
      have := ih f.2 [] true
      simp only [if_pos] at this
      rw [List.cons_append, this]
    · simp only [if_neg hge]
      exact ih f.2 (pending ++ filtered) e

theorem decorateRec_path (it : Item) : (decorateRec it).path = it.path := rfl

theorem decorateRec_origin (it : Item) : (decorateRec it).origin = it.origin := rfl

theorem decorateRec_isDirectory (it : Item) :
    (decorateRec it).isDirectory = it.isDirectory := rfl

theorem itemKey_decorateRec (it : Item) : itemKey (decorateRec it) = itemKey it := rfl

theorem recFilterGo_sub (seen : Seen) (l : List Item) :
    ∀ it ∈ (recFilterGo seen l).1, it ∈ l := by
  induction l generalizing seen with
  | nil => simp [recFilterGo]
  | cons it rest ih =>
    intro x hx
    by_cases hp : it.path = ""
    · simp only [recFilterGo, if_pos hp, List.mem_cons] at hx
      rcases hx with hx | hx
      · exact hx ▸ List.mem_cons_self _ _
      · exact List.mem_cons_of_mem _ (ih seen x hx)
    · by_cases hs : normalizePath it.path ∈ seen
      · simp only [recFilterGo, if_neg hp, if_pos hs] at hx
        exact List.mem_cons_of_mem _ (ih seen x hx)
      · simp only [recFilterGo, if_neg hp, if_neg hs, List.mem_cons] at hx
        rcases hx with hx | hx
        · exact hx ▸ List.mem_cons_self _ _
        · exact List.mem_cons_of_mem _ (ih _ x hx)

/-- Any per-item property preserved by decoration and inherited from the
walker chunks holds for every item the consumer loop lets through. -/
theorem chainBatches_pres (dedup sp : Bool) (seen : Seen) (cs : List (List Item))
    (Q : Item → Prop) (hdec : ∀ it, Q it → Q (decorateRec it))
    (hall : ∀ it ∈ cs.flatten, Q it) :
    ∀ it ∈ (chainBatches dedup sp seen cs).flatten, Q it := by
  induction cs generalizing seen with
  | nil => simp [chainBatches]
  | cons c cs ih =>
    simp only [List.flatten_cons, List.mem_append] at hall ⊢
    intro it hit
    simp only [chainBatches, List.flatten_cons, List.mem_append] at hit
    have hc : ∀ x ∈ c, Q x := fun x hx => hall x (Or.inl hx)
    have hcs : ∀ x ∈ cs.flatten, Q x := fun x hx => hall x (Or.inr hx)
    rcases hit with hit | hit
    · by_cases hsp : sp
      · simp only [if_pos hsp, List.mem_map] at hit
        obtain ⟨x, hx, rfl⟩ := hit
        have hxc : x ∈ c := by
          cases hdd : dedup with
          | true => exact recFilterGo_sub seen c x (by simpa [recFilter, hdd] using hx)
          | false => simpa [recFilter, hdd] using hx
        exact hdec x (hc x hxc)
      · simp only [if_neg hsp] at hit
        have hxc : it ∈ c := by
          cases hdd : dedup with
          | true => exact recFilterGo_sub seen c it (by simpa [recFilter, hdd] using hit)
          | false => simpa [recFilter, hdd] using hit
        exact hc it hxc
    · exact ih _ (fun x hx => hcs x hx) it hit

/-- With dedup on and walker chunks of non-empty paths, the keys let
through by the whole chunk stream are the stream's first-seen keys, and
the final registry is the input registry plus every submitted key. -/
theorem chainBatches_keys (sp : Bool) (seen : Seen) (cs : List (List Item))
    (h : ∀ it ∈ cs.flatten, it.path ≠ "") :
    ((chainBatches true sp seen cs).flatten.map itemKey =
        newKeys seen (cs.flatten.map itemKey)) ∧
      chainSeen true seen cs = addKeys seen (cs.flatten.map itemKey) := by
  induction cs generalizing seen with
  | nil => simp [chainBatches, chainSeen, newKeys, addKeys]
  | cons c cs ih =>
    simp only [List.flatten_cons, List.mem_append] at h
    have hc : ∀ x ∈ c, x.path ≠ "" := fun x hx => h x (Or.inl hx)
    have hcs : ∀ x ∈ cs.flatten, x.path ≠ "" := fun x hx => h x (Or.inr hx)
    have hgo := recFilterGo_spec seen c hc
    have hf1 : (recFilter true seen c).1 = (recFilterGo seen c).1 := by
      simp [recFilter]
    have hf2 : (recFilter true seen c).2 = (recFilterGo seen c).2 := by
      simp [recFilter]
    have ihs := ih (addKeys seen (c.map itemKey)) hcs
    have hkeys : (if sp then ((recFilter true seen c).1.map decorateRec)
        else (recFilter true seen c).1).map itemKey =
        newKeys seen (c.map itemKey) := by
      by_cases hsp : sp
      · simp only [if_pos hsp, hf1, List.map_map]
        have : (itemKey ∘ decorateRec) = itemKey := by
          funext x
          exact itemKey_decorateRec x
        rw [this, hgo.1]
      · simp only [if_neg hsp, hf1, hgo.1]
    constructor
    · simp only [chainBatches, List.flatten_cons, List.map_append, hf2, hkeys,
        newKeys_append, hgo.2.1, ihs.1]
    · simp only [chainSeen, List.flatten_cons, List.map_append, hf2,
        addKeys_append, hgo.2.1, ihs.2]

/-- The rec stage delivers a prefix of the filtered chunk stream (the
whole stream when the walk completed, the part before the dropped pending
otherwise), and its final registry is the filtered stream's registry. -/
theorem gatherRec_chain (base : Nat) (dedup sp : Bool) (seen : Seen)
    (ws : List (List Item)) (oc : Outcome) :
    (∃ tail, (gatherRec base dedup sp seen ws oc).1.flatten ++ tail =
        (chainBatches dedup sp seen ws).flatten) ∧
      (gatherRec base dedup sp seen ws oc).2 = chainSeen dedup seen ws := by
  have h := recLoopAux_chain base dedup sp ws seen [] base
  constructor
  · cases oc with
    | done =>
      refine ⟨[], ?_⟩
      simp only [gatherRec, List.flatten_append, List.append_nil]
      have : (if (recLoopAux base dedup sp ws seen [] base).2.2.1.isEmpty then
          ([] : List (List Item))
        else [(recLoopAux base dedup sp ws seen [] base).2.2.1]).flatten =
          (recLoopAux base dedup sp ws seen [] base).2.2.1 := by
        by_cases hemp : (recLoopAux base dedup sp ws seen [] base).2.2.1.isEmpty
        · simp [hemp, List.isEmpty_iff.mp hemp]
        · simp [hemp]
      rw [this]
      simpa using h.1
    | aborted =>
      exact ⟨_, by simpa [gatherRec] using h.1⟩
    | err =>
      exact ⟨_, by simpa [gatherRec] using h.1⟩
  · cases oc with
    | done => simpa [gatherRec] using h.2
    | aborted => simpa [gatherRec] using h.2
    | err => simpa [gatherRec] using h.2

/-- No batch the rec stage enqueues is empty when the base chunk size is
positive. -/
theorem gatherRec_nonempty (base : Nat) (dedup sp : Bool) (seen : Seen)
    (ws : List (List Item)) (oc : Outcome) (hbase : 1 ≤ base) :
    ∀ b ∈ (gatherRec base dedup sp seen ws oc).1, b ≠ [] := by
  have hloop := recLoopAux_nonempty base dedup sp ws seen [] base hbase hbase
  cases oc with
  | done =>
    intro b hb
    simp only [gatherRec, List.mem_append] at hb
    rcases hb with hb | hb
    · exact hloop b hb
    · by_cases hemp : (recLoopAux base dedup sp ws seen [] base).2.2.1.isEmpty
      · simp [hemp] at hb
      · simp only [if_neg hemp, List.mem_singleton] at hb
        subst hb
        exact fun hc => hemp (by simp [hc])
  | aborted => simpa [gatherRec] using hloop
  | err => simpa [gatherRec] using hloop

/-! ## Walker facts -/

theorem joinPath_ne_empty (d n : String) : joinPath d n ≠ "" := by
  intro h
  have h1 := congrArg String.length h
  simp only [joinPath, String.length_append] at h1
  have h2 : ("/" : String).length = 1 := rfl
  have h3 : ("" : String).length = 0 := rfl
  rw [h2, h3] at h1
  omega

theorem mkRecItem_origin (root p : String) : (mkRecItem root p).origin = .walk := rfl

theorem mkRecItem_path (root p : String) : (mkRecItem root p).path = p := rfl

theorem mkRecItem_isDirectory (root p : String) :
    (mkRecItem root p).isDirectory = false := rfl

mutual
/-- Every item a walker activation yields is a walker item: walk
provenance, a non-empty path (it always contains the separator joined in
by joinPath), not a directory, and no decoration yet. -/
theorem walkDir_items (cfg : WalkCfg) (dir : String) (t : FSTree) (steps : Nat) :
    ∀ it ∈ (walkDir cfg dir t steps).1.flatten,
      it.origin = .walk ∧ it.path ≠ "" ∧ it.isDirectory = false := by
  match t with
  | .node entries tailErr =>
    rw [walkDir.eq_def]
    exact walkEntries_items cfg dir entries tailErr [] steps (by simp)

theorem walkEntries_items (cfg : WalkCfg) (dir : String) (es : FSEntries)
    (tailErr : Option Bool) (chunk : List Item) (steps : Nat)
    (hchunk : ∀ it ∈ chunk, it.origin = .walk ∧ it.path ≠ "" ∧ it.isDirectory = false) :
    ∀ it ∈ (walkEntries cfg dir es tailErr chunk steps).1.flatten,
      it.origin = .walk ∧ it.path ≠ "" ∧ it.isDirectory = false := by
  match es with
  | .nil =>
    rw [walkEntries.eq_def]
    by_cases ha : abortedSig cfg steps
    · simp [ha]
    · simp only [if_neg ha]
      match tailErr with
      | some true => simp
      | some false => simp
      | none =>
        by_cases hemp : chunk.isEmpty
        · simp [hemp]
        · simpa [hemp] using hchunk
  | .cons name meta sub rest =>
    rw [walkEntries.eq_def]
    by_cases ha : abortedSig cfg steps
    · simp [ha]
    · simp only [if_neg ha]
      match hst : readStat meta cfg.expand with
      | none => exact walkEntries_items cfg dir rest tailErr chunk (steps + 1) hchunk
      | some stat =>
        by_cases hdir : !stat.isDirectory
        · simp only [if_pos hdir]
          have hchunk2 : ∀ it ∈ chunk ++ [mkRecItem cfg.root (joinPath dir name)],
              it.origin = .walk ∧ it.path ≠ "" ∧ it.isDirectory = false := by
            intro it hit
            rcases List.mem_append.mp hit with h | h
            · exact hchunk it h
            · rcases List.mem_singleton.mp h with rfl
              exact ⟨rfl, joinPath_ne_empty dir name, rfl⟩
          by_cases hge : (chunk ++ [mkRecItem cfg.root (joinPath dir name)]).length ≥
              cfg.chunkSize
          · simp only [if_pos hge, List.flatten_cons]
            intro it hit
            rcases List.mem_append.mp hit with h | h
            · exact hchunk2 it h
            · exact walkEntries_items cfg dir rest tailErr [] (steps + 1) (by simp) it h
          · simp only [if_neg hge]
            exact walkEntries_items cfg dir rest tailErr _ (steps + 1) hchunk2
        · simp only [if_neg hdir]
          by_cases hign : name ∈ cfg.ignored
          · simp only [if_pos hign]
            exact walkEntries_items cfg dir rest tailErr chunk (steps + 1) hchunk
          · simp only [if_neg hign]
            by_cases hloop : stat.isSymlink && stat.isDirectory &&
                jsIncludes (joinPath dir name) meta.realPath
            · simp only [if_pos hloop]
              exact walkEntries_items cfg dir rest tailErr chunk (steps + 1) hchunk
            · simp only [if_neg hloop]
              match hoc : (walkDir cfg (joinPath dir name) sub (steps + 1)).2.1 with
              | .done =>
                simp only [List.flatten_append]
                intro it hit
                rcases List.mem_append.mp hit with h | h
                · exact walkDir_items cfg (joinPath dir name) sub (steps + 1) it h
                · exact walkEntries_items cfg dir rest tailErr chunk _ hchunk it h
              | .aborted =>
                exact walkDir_items cfg (joinPath dir name) sub (steps + 1)
              | .err =>
                exact walkDir_items cfg (joinPath dir name) sub (steps + 1)
end

/-- Once the shared signal is aborted it stays aborted: the transition is
one-way and permanent for the run. -/
theorem abortedSig_mono (cfg : WalkCfg) (s s' : Nat) (h : s ≤ s')
    (ha : abortedSig cfg s = true) : abortedSig cfg s' = true := by
  cases hk : cfg.abortAt with
  | none => simp [abortedSig, hk] at ha
  | some k =>
    simp only [abortedSig, hk, decide_eq_true_eq] at ha ⊢
    omega

/-- A walker activation entered with the signal already aborted yields no
batch at all and ends within the one pending directory-entry step. -/
theorem walkEntries_aborted (cfg : WalkCfg) (dir : String) (es : FSEntries)
    (tailErr : Option Bool) (chunk : List Item) (steps : Nat)
    (ha : abortedSig cfg steps = true) :
    walkEntries cfg dir es tailErr chunk steps = ([], .aborted, steps + 1) := by
  match es with
  | .nil => rw [walkEntries.eq_def]; simp [ha]
  | .cons name meta sub rest => rw [walkEntries.eq_def]; simp [ha]

theorem walkDir_aborted (cfg : WalkCfg) (dir : String) (t : FSTree) (steps : Nat)
    (ha : abortedSig cfg steps = true) :
    walkDir cfg dir t steps = ([], .aborted, steps + 1) := by
  match t with
  | .node entries tailErr =>
    rw [walkDir.eq_def]
    exact walkEntries_aborted cfg dir entries tailErr [] steps ha

/-! ## Stage view of gatherRun -/

/-- The buffer stage of one run (empty and registry-neutral when disabled). -/
def bufStage (P : Params) (inp : RunInput) : List Item × Seen :=
  if P.enableBuffer then
    gatherBuffer inp.bufinfo inp.ctxBufNr P.bufferOrderby [] P.dedup P.showSourcePrefix
  else ([], [])

/-- The MRU stage of one run. -/
def mrStage (P : Params) (inp : RunInput) : (List Item × Seen) × Bool :=
  if P.enableMr then
    gatherMr P.mrKind (bufStage P inp).2 P.dedup P.showSourcePrefix inp.mrResponse
  else (([], (bufStage P inp).2), false)

def walkCfgOf (P : Params) (inp : RunInput) : WalkCfg :=
  { root := inp.rootPath
    ignored := P.ignoredDirectories
    chunkSize := P.chunkSize
    expand := P.expandSymbolicLink
    abortAt := inp.abortAt }

/-- The raw walker stream of one run. -/
def walkRes (P : Params) (inp : RunInput) : List (List Item) × Outcome × Nat :=
  walkDir (walkCfgOf P inp) inp.rootPath inp.tree 0

/-- The file_rec stage of one run. -/
def recStage (P : Params) (inp : RunInput) : List (List Item) × Seen :=
  if P.enableFileRec then
    gatherRec P.chunkSize P.dedup P.showSourcePrefix (mrStage P inp).1.2
      (walkRes P inp).1 (walkRes P inp).2.1
  else ([], (mrStage P inp).1.2)

theorem gatherRun_batches (P : Params) (inp : RunInput) :
    (gatherRun P inp).batches =
      (if (bufStage P inp).1.isEmpty then [] else [(bufStage P inp).1]) ++
        (if (mrStage P inp).1.1.isEmpty then [] else [(mrStage P inp).1.1]) ++
        (recStage P inp).1 := by
  cases hf : P.enableFileRec <;>
    simp [gatherRun, bufStage, mrStage, recStage, walkRes, walkCfgOf, hf]

theorem gatherRun_seen (P : Params) (inp : RunInput) :
    (gatherRun P inp).seen = (recStage P inp).2 := by
  cases hf : P.enableFileRec <;>
    simp [gatherRun, bufStage, mrStage, recStage, walkRes, walkCfgOf, hf]

theorem gatherRun_mrLogged (P : Params) (inp : RunInput) :
    (gatherRun P inp).mrLogged = (mrStage P inp).2 := by
  cases hf : P.enableFileRec <;>
    simp [gatherRun, bufStage, mrStage, walkRes, walkCfgOf, hf]

theorem gatherRun_walkOutcome (P : Params) (inp : RunInput) :
    (gatherRun P inp).walkOutcome =
      if P.enableFileRec then (walkRes P inp).2.1 else .done := by
  cases hf : P.enableFileRec <;>
    simp [gatherRun, bufStage, mrStage, walkRes, walkCfgOf, hf]

theorem gatherRun_errorLogged (P : Params) (inp : RunInput) :
    (gatherRun P inp).errorLogged =
      if P.enableFileRec then
        (match (walkRes P inp).2.1 with
          | .done => false
          | .aborted => !isIgnoredAbortName inp.abortErrName
          | .err => !isIgnoredAbortName inp.fsErrName)
      else false := by
  cases hf : P.enableFileRec <;>
    simp [gatherRun, bufStage, mrStage, walkRes, walkCfgOf, hf]

theorem flatten_guard (l : List Item) :
    (if l.isEmpty then ([] : List (List Item)) else [l]).flatten = l := by
  by_cases h : l.isEmpty
  · simp [h, List.isEmpty_iff.mp h]
  · simp [h]

/-- The dedup keys the buffer stage submits (none when disabled). -/
def effBufKeys (P : Params) (inp : RunInput) : List String :=
  if P.enableBuffer then bufCandKeys inp.bufinfo inp.ctxBufNr P.bufferOrderby else []

/-- The dedup keys the MRU stage submits (none when disabled or failed). -/
def effMrKeys (P : Params) (inp : RunInput) : List String :=
  if P.enableMr then mrKeysOf inp.mrResponse else []

/-- The dedup keys the walker stream submits (none when disabled). -/
def effRecKeys (P : Params) (inp : RunInput) : List String :=
  if P.enableFileRec then (walkRes P inp).1.flatten.map itemKey else []

theorem bufStage_true_spec (P : Params) (inp : RunInput) (hd : P.dedup = true) :
    ((bufStage P inp).1.map itemKey = newKeys [] (effBufKeys P inp)) ∧
      (bufStage P inp).2 = addKeys [] (effBufKeys P inp) := by
  cases hb : P.enableBuffer with
  | false => simp [bufStage, effBufKeys, hb, newKeys, addKeys]
  | true =>
    have h := bufLoop_true_spec inp.ctxBufNr inp.bufinfo.alternateBufNr
      inp.bufinfo.currentDir P.showSourcePrefix []
      (sortBuffers P.bufferOrderby inp.ctxBufNr (inp.bufinfo.buffers.filter (·.listed)))
    constructor
    · simpa [bufStage, effBufKeys, hb, gatherBuffer, hd, bufCandKeys, bufCandidates]
        using h.1
    · simpa [bufStage, effBufKeys, hb, gatherBuffer, hd, bufCandKeys, bufCandidates]
        using h.2

theorem bufStage_origin (P : Params) (inp : RunInput) :
    ∀ it ∈ (bufStage P inp).1, it.origin = .buf := by
  cases hb : P.enableBuffer with
  | false => simp [bufStage, hb]
  | true =>
    intro it hit
    exact bufLoop_origin inp.ctxBufNr inp.bufinfo.alternateBufNr
      inp.bufinfo.currentDir P.dedup P.showSourcePrefix _ _ it
      (by simpa [bufStage, hb, gatherBuffer] using hit)

theorem mrStage_true_spec (P : Params) (inp : RunInput) (hd : P.dedup = true) :
    ((mrStage P inp).1.1.map itemKey = newKeys (bufStage P inp).2 (effMrKeys P inp)) ∧
      (mrStage P inp).1.2 = addKeys (bufStage P inp).2 (effMrKeys P inp) := by
  cases hm : P.enableMr with
  | false => simp [mrStage, effMrKeys, hm, newKeys, addKeys]
  | true =>
    cases hr : inp.mrResponse with
    | none => simp [mrStage, effMrKeys, hm, hr, gatherMr, mrKeysOf, newKeys, addKeys]
    | some r =>
      have h := mrLoop_true_spec P.mrKind P.showSourcePrefix (bufStage P inp).2 r
      constructor
      · simpa [mrStage, effMrKeys, hm, hr, gatherMr, hd, mrKeysOf] using h.1
      · simpa [mrStage, effMrKeys, hm, hr, gatherMr, hd, mrKeysOf] using h.2

theorem mrStage_origin (P : Params) (inp : RunInput) :
    ∀ it ∈ (mrStage P inp).1.1, it.origin = .mru := by
  cases hm : P.enableMr with
  | false => simp [mrStage, hm]
  | true =>
    cases hr : inp.mrResponse with
    | none => simp [mrStage, hm, hr, gatherMr]
    | some r =>
      intro it hit
      exact mrLoop_origin P.mrKind P.dedup P.showSourcePrefix _ r it
        (by simpa [mrStage, hm, hr, gatherMr] using hit)

/-- Every item of the delivered rec batches comes from the filtered chunk
stream. -/
theorem recStage_sub (P : Params) (inp : RunInput) :
    ∀ it ∈ (recStage P inp).1.flatten,
      it ∈ (chainBatches P.dedup P.showSourcePrefix (mrStage P inp).1.2
        (walkRes P inp).1).flatten := by
  cases hf : P.enableFileRec with
  | false => simp [recStage, hf]
  | true =>
    intro it hit
    obtain ⟨tail, htail⟩ := (gatherRec_chain P.chunkSize P.dedup P.showSourcePrefix
      (mrStage P inp).1.2 (walkRes P inp).1 (walkRes P inp).2.1).1
    rw [← htail]
    exact List.mem_append_left _ (by simpa [recStage, hf] using hit)

theorem recStage_items (P : Params) (inp : RunInput) :
    ∀ it ∈ (recStage P inp).1.flatten,
      it.origin = .walk ∧ it.path ≠ "" ∧ it.isDirectory = false := by
  intro it hit
  refine chainBatches_pres P.dedup P.showSourcePrefix (mrStage P inp).1.2
    (walkRes P inp).1
    (fun x => x.origin = .walk ∧ x.path ≠ "" ∧ x.isDirectory = false)
    ?_ ?_ it (recStage_sub P inp it hit)
  · intro x hx
    exact ⟨hx.1, hx.2.1, hx.2.2⟩
  · exact walkDir_items (walkCfgOf P inp) inp.rootPath inp.tree 0

theorem recStage_true_spec (P : Params) (inp : RunInput) (hd : P.dedup = true) :
    (∃ tail, (recStage P inp).1.flatten.map itemKey ++ tail =
        newKeys (mrStage P inp).1.2 (effRecKeys P inp)) ∧
      (recStage P inp).2 = addKeys (mrStage P inp).1.2 (effRecKeys P inp) := by
  cases hf : P.enableFileRec with
  | false =>
    refine ⟨⟨[], ?_⟩, ?_⟩ <;> simp [recStage, effRecKeys, hf, newKeys, addKeys]
  | true =>
    have hpaths : ∀ it ∈ (walkRes P inp).1.flatten, it.path ≠ "" :=
      fun it hit => (walkDir_items (walkCfgOf P inp) inp.rootPath inp.tree 0 it hit).2.1
    have hchain := chainBatches_keys P.showSourcePrefix (mrStage P inp).1.2
      (walkRes P inp).1 hpaths
    have hrec := gatherRec_chain P.chunkSize P.dedup P.showSourcePrefix
      (mrStage P inp).1.2 (walkRes P inp).1 (walkRes P inp).2.1
    constructor
    · obtain ⟨tail, htail⟩ := hrec.1
      refine ⟨tail.map itemKey, ?_⟩
      have : ((recStage P inp).1.flatten ++ tail).map itemKey =
          newKeys (mrStage P inp).1.2 (effRecKeys P inp) := by
        rw [show (recStage P inp).1 = (gatherRec P.chunkSize P.dedup
          P.showSourcePrefix (mrStage P inp).1.2 (walkRes P inp).1
          (walkRes P inp).2.1).1 from by simp [recStage, hf]]
        rw [htail, hd] at *
        simpa [effRecKeys, hf] using hchain.1
      simpa [List.map_append] using this
    · have : (recStage P inp).2 = (gatherRec P.chunkSize P.dedup P.showSourcePrefix
          (mrStage P inp).1.2 (walkRes P inp).1 (walkRes P inp).2.1).2 := by
        simp [recStage, hf]
      rw [this, hrec.2, hd]
      simpa [effRecKeys, hf] using hchain.2

/-! ## Claims -/

/-- C1: for every aggregation run with dedup enabled, each normalized path
key appears in at most one delivered item across the three sources, and a
delivered MRU-origin item's key was never produced by an enabled buffer
source, while a delivered walker-origin item's key was produced neither by
an enabled buffer source nor by an enabled MRU source — so the surviving
item always comes from the earliest-priority source that produced its key
(buffer > MRU > recursive-walk). -/
theorem c1_dedup_unique (P : Params) (inp : RunInput) (hd : P.dedup = true) :
    ((gatherRun P inp).batches.flatten.map itemKey).Nodup ∧
      ∀ it ∈ (gatherRun P inp).batches.flatten,
        (it.origin = .mru → P.enableBuffer = true →
          itemKey it ∉ bufCandKeys inp.bufinfo inp.ctxBufNr P.bufferOrderby) ∧
        (it.origin = .walk →
          (P.enableBuffer = true →
            itemKey it ∉ bufCandKeys inp.bufinfo inp.ctxBufNr P.bufferOrderby) ∧
          (P.enableMr = true → itemKey it ∉ mrKeysOf inp.mrResponse)) := by
  have hB := bufStage_true_spec P inp hd
  have hM := mrStage_true_spec P inp hd
  have hR := recStage_true_spec P inp hd
  obtain ⟨tailR, htailR⟩ := hR.1
  have hout : (gatherRun P inp).batches.flatten =
      (bufStage P inp).1 ++ (mrStage P inp).1.1 ++ (recStage P inp).1.flatten := by
    rw [gatherRun_batches]
    simp only [List.flatten_append, flatten_guard, List.append_assoc]
  -- membership facts about the three key lists
  have hBin : ∀ k ∈ (bufStage P inp).1.map itemKey, k ∈ (bufStage P inp).2 := by
    intro k hk
    rw [hB.1] at hk
    rw [hB.2]
    exact mem_addKeys.mpr (Or.inr (mem_of_mem_newKeys hk))
  have hS12 : ∀ k ∈ (bufStage P inp).2, k ∈ (mrStage P inp).1.2 := by
    intro k hk
    rw [hM.2]
    exact mem_addKeys.mpr (Or.inl hk)
  have hMin : ∀ k ∈ (mrStage P inp).1.1.map itemKey, k ∈ (mrStage P inp).1.2 := by
    intro k hk
    rw [hM.1] at hk
    rw [hM.2]
    exact mem_addKeys.mpr (Or.inr (mem_of_mem_newKeys hk))
  have hMnot : ∀ k ∈ (mrStage P inp).1.1.map itemKey, k ∉ (bufStage P inp).2 := by
    intro k hk
    rw [hM.1] at hk
    exact not_mem_seen_of_mem_newKeys hk
  have hRmem : ∀ k ∈ (recStage P inp).1.flatten.map itemKey,
      k ∈ newKeys (mrStage P inp).1.2 (effRecKeys P inp) := by
    intro k hk
    rw [← htailR]
    exact List.mem_append_left _ hk
  have hRnot : ∀ k ∈ (recStage P inp).1.flatten.map itemKey,
      k ∉ (mrStage P inp).1.2 := by
    intro k hk
    exact not_mem_seen_of_mem_newKeys (hRmem k hk)
  have hEffBuf : P.enableBuffer = true →
      ∀ k ∈ bufCandKeys inp.bufinfo inp.ctxBufNr P.bufferOrderby,
        k ∈ (bufStage P inp).2 := by
    intro hb k hk
    rw [hB.2]
    refine mem_addKeys.mpr (Or.inr ?_)
    simpa [effBufKeys, hb] using hk
  have hEffMr : P.enableMr = true → ∀ k ∈ mrKeysOf inp.mrResponse,
      k ∈ (mrStage P inp).1.2 := by
    intro hm k hk
    rw [hM.2]
    refine mem_addKeys.mpr (Or.inr ?_)
    simpa [effMrKeys, hm] using hk
  constructor
  · -- uniqueness of normalized keys across every delivered item
    rw [hout]
    simp only [List.map_append]
    rw [List.nodup_append, List.nodup_append]
    refine ⟨⟨?_, ?_, ?_⟩, ?_, ?_⟩
    · rw [hB.1]; exact newKeys_nodup _ _
    · rw [hM.1]; exact newKeys_nodup _ _
    · intro k hkB hkM
      exact hMnot k hkM (hBin k hkB)
    · have hnd : ((recStage P inp).1.flatten.map itemKey ++ tailR).Nodup := by
        rw [htailR]
        exact newKeys_nodup _ _
      exact hnd.of_append_left
    · intro k hk hkR
      rcases List.mem_append.mp hk with hkB | hkM
      · exact hRnot k hkR (hS12 k (hBin k hkB))
      · exact hRnot k hkR (hMin k hkM)
  · -- the survivor comes from the earliest-priority producing source
    intro it hit
    rw [hout] at hit
    rcases List.mem_append.mp hit with hit2 | hitR
    · rcases List.mem_append.mp hit2 with hitB | hitM
      · have hob := bufStage_origin P inp it hitB
        constructor
        · intro ho
          rw [hob] at ho
          exact absurd ho (by simp)
        · intro ho
          rw [hob] at ho
          exact absurd ho (by simp)
      · have hom := mrStage_origin P inp it hitM
        constructor
        · intro _ hb hkey
          exact hMnot (itemKey it) (List.mem_map_of_mem _ hitM)
            (hEffBuf hb (itemKey it) hkey)
        · intro ho
          rw [hom] at ho
          exact absurd ho (by simp)
    · have how := (recStage_items P inp it hitR).1
      have hknot := hRnot (itemKey it) (List.mem_map_of_mem _ hitR)
      constructor
      · intro ho
        rw [how] at ho
        exact absurd ho (by simp)
      · intro _
        constructor
        · intro hb hkey
          exact hknot (hS12 _ (hEffBuf hb _ hkey))
        · intro hm hkey
          exact hknot (hEffMr hm _ hkey)

/-- Delivery rank of a provenance: buffer before MRU before walker. -/
def originRank : Origin → Nat
  | .buf => 0
  | .mru => 1
  | .walk => 2

/-- C2: with all three sources enabled, the delivered stream is ordered by
provenance rank: every buffer-origin item precedes every MRU-origin item,
which precedes every walker-origin item; the model composes the three
adapters strictly sequentially in that fixed order, so walker batches can
never overtake batches of the earlier adapters. -/
theorem c2_priority_order (P : Params) (inp : RunInput)
    (hb : P.enableBuffer = true) (hm : P.enableMr = true)
    (hf : P.enableFileRec = true) :
    (gatherRun P inp).batches.flatten.Pairwise
      (fun a b => originRank a.origin ≤ originRank b.origin) := by
  have hout : (gatherRun P inp).batches.flatten =
      (bufStage P inp).1 ++ (mrStage P inp).1.1 ++ (recStage P inp).1.flatten := by
    rw [gatherRun_batches]
    simp only [List.flatten_append, flatten_guard, List.append_assoc]
  rw [hout]
  have hOB := bufStage_origin P inp
  have hOM := mrStage_origin P inp
  have hOR := recStage_items P inp
  rw [List.pairwise_append]
  refine ⟨?_, ?_, ?_⟩
  · rw [List.pairwise_append]
    refine ⟨?_, ?_, ?_⟩
    · exact List.pairwise_of_forall_mem_list fun a ha b hc => by
        rw [hOB a ha, hOB b hc]
    · exact List.pairwise_of_forall_mem_list fun a ha b hc => by
        rw [hOM a ha, hOM b hc]
    · intro a ha b hc
      rw [hOB a ha, hOM b hc]
      exact Nat.zero_le 1
  · exact List.pairwise_of_forall_mem_list fun a ha b hc => by
      rw [(hOR a ha).1, (hOR b hc).1]
  · intro a ha b hc
    rw [(hOR b hc).1]
    rcases List.mem_append.mp ha with h | h
    · rw [hOB a h]
      exact Nat.zero_le 2
    · rw [hOM a h]
      exact Nat.le_succ 1

/-- C5: the file_rec stage of a walk that ran to completion is exactly the
spec's Chunk Emitter applied to the filtered chunk stream: the first
emission threshold is the configured base chunk size, every later emission
uses the tenfold threshold, and the leftover is flushed unconditionally at
the end. -/
theorem c5_chunk_emitter_refines (base : Nat) (dedup sp : Bool) (seen : Seen)
    (cs : List (List Item)) :
    (gatherRec base dedup sp seen cs .done).1 =
      emitterSpec base (chainBatches dedup sp seen cs) := by
  have h := recLoopAux_emitter base dedup sp cs seen [] false
  simp only [Bool.false_eq_true, if_false] at h
  simpa [gatherRec, emitterSpec] using h

/-- C7: when the MRU dispatch times out, fails, or returns a malformed
response (every such case makes the ensure throw, modelled as a none
response), the MRU adapter logs its diagnostic and contributes nothing:
the run delivers exactly what the same run with the MRU source disabled
delivers, with the same registry and the same walk outcome — the failure
never aborts aggregation.  The dispatch deadline is 1000 ms. -/
theorem c7_mr_failure_isolated (P : Params) (inp : RunInput)
    (hr : inp.mrResponse = none) :
    (gatherRun P inp).batches = (gatherRun { P with enableMr := false } inp).batches ∧
      (gatherRun P inp).seen = (gatherRun { P with enableMr := false } inp).seen ∧
      (gatherRun P inp).walkOutcome =
        (gatherRun { P with enableMr := false } inp).walkOutcome ∧
      (P.enableMr = true → (gatherRun P inp).mrLogged = true) ∧
      mrTimeoutMs = 1000 := by
  cases hm : P.enableMr <;> cases hf : P.enableFileRec <;>
    refine ⟨?_, ?_, ?_, ?_, rfl⟩ <;>
    simp [gatherRun, gatherMr, hr, hm, hf]

theorem chainSeen_false (seen : Seen) (cs : List (List Item)) :
    chainSeen false seen cs = seen := by
  induction cs generalizing seen with
  | nil => rfl
  | cons c cs ih => simpa [chainSeen, recFilter] using ih seen

theorem bufStage_false_spec (P : Params) (inp : RunInput) (hd : P.dedup = false) :
    ((bufStage P inp).1.map itemKey = effBufKeys P inp) ∧
      (bufStage P inp).2 = [] := by
  cases hb : P.enableBuffer with
  | false => simp [bufStage, effBufKeys, hb]
  | true =>
    have h := bufLoop_false_spec inp.ctxBufNr inp.bufinfo.alternateBufNr
      inp.bufinfo.currentDir P.showSourcePrefix []
      (sortBuffers P.bufferOrderby inp.ctxBufNr (inp.bufinfo.buffers.filter (·.listed)))
    constructor
    · simpa [bufStage, effBufKeys, hb, gatherBuffer, hd, bufCandKeys, bufCandidates]
        using h.1
    · simpa [bufStage, hb, gatherBuffer, hd] using h.2

theorem mrStage_false_spec (P : Params) (inp : RunInput) (hd : P.dedup = false) :
    ((mrStage P inp).1.1.map itemKey = effMrKeys P inp) ∧
      (mrStage P inp).1.2 = (bufStage P inp).2 := by
  cases hm : P.enableMr with
  | false => simp [mrStage, effMrKeys, hm]
  | true =>
    cases hr : inp.mrResponse with
    | none => simp [mrStage, effMrKeys, hm, hr, gatherMr, mrKeysOf]
    | some r =>
      have h := mrLoop_false_spec P.mrKind P.showSourcePrefix (bufStage P inp).2 r
      constructor
      · simpa [mrStage, effMrKeys, hm, hr, gatherMr, hd, mrKeysOf] using h.1
      · simpa [mrStage, hm, hr, gatherMr, hd] using h.2

/-- A rec stage whose walk ran to completion delivers the filtered chunk
stream in full: the final unconditional flush leaves nothing behind. -/
theorem gatherRec_done_flatten (base : Nat) (dedup sp : Bool) (seen : Seen)
    (ws : List (List Item)) :
    (gatherRec base dedup sp seen ws .done).1.flatten =
      (chainBatches dedup sp seen ws).flatten := by
  have h := recLoopAux_chain base dedup sp ws seen [] base
  simp only [gatherRec, List.flatten_append]
  have hg : (if (recLoopAux base dedup sp ws seen [] base).2.2.1.isEmpty then
      ([] : List (List Item))
    else [(recLoopAux base dedup sp ws seen [] base).2.2.1]).flatten =
      (recLoopAux base dedup sp ws seen [] base).2.2.1 := by
    by_cases hemp : (recLoopAux base dedup sp ws seen [] base).2.2.1.isEmpty
    · simp [hemp, List.isEmpty_iff.mp hemp]
    · simp [hemp]
  rw [hg]
  simpa using h.1

/-- With dedup off the chunk-stream filter is the identity up to
decoration, which does not touch paths: the keys flowing out are exactly
the keys the walker yielded. -/
theorem chainBatches_false_keys (sp : Bool) (seen : Seen) (ws : List (List Item)) :
    (chainBatches false sp seen ws).flatten.map itemKey =
      ws.flatten.map itemKey := by
  induction ws generalizing seen with
  | nil => simp [chainBatches]
  | cons c cs ih =>
    have hf : recFilter false seen c = (c, seen) := by simp [recFilter]
    simp only [chainBatches, hf, List.flatten_cons, List.map_append]
    by_cases hsp : sp
    · simp only [if_pos hsp, List.map_map]
      have hcomp : (itemKey ∘ decorateRec) = itemKey := by
        funext x
        exact itemKey_decorateRec x
      rw [hcomp, ih seen]
    · simp only [if_neg hsp, ih seen]

/-- C8: with dedup disabled nothing is ever recorded in the registry and
nothing is filtered: every key an enabled buffer source produces is
delivered by a buffer-origin item, every key an enabled MRU source
produces is delivered by an MRU-origin item, and every key the enabled
walker yields in a walk that ran to completion is delivered by a
walker-origin item — so a path produced by two enabled sources appears
once per source, each occurrence carrying its own source's provenance. -/
theorem c8_dedup_off_passthrough (P : Params) (inp : RunInput)
    (hd : P.dedup = false) :
    (gatherRun P inp).seen = [] ∧
      (∀ k, P.enableBuffer = true →
        k ∈ bufCandKeys inp.bufinfo inp.ctxBufNr P.bufferOrderby →
        ∃ it ∈ (gatherRun P inp).batches.flatten,
          it.origin = .buf ∧ itemKey it = k) ∧
      (∀ k, P.enableMr = true → k ∈ mrKeysOf inp.mrResponse →
        ∃ it ∈ (gatherRun P inp).batches.flatten,
          it.origin = .mru ∧ itemKey it = k) ∧
      (∀ k, P.enableFileRec = true → (gatherRun P inp).walkOutcome = .done →
        k ∈ (walkRes P inp).1.flatten.map itemKey →
        ∃ it ∈ (gatherRun P inp).batches.flatten,
          it.origin = .walk ∧ itemKey it = k) := by
  have hBf := bufStage_false_spec P inp hd
  have hMf := mrStage_false_spec P inp hd
  have hout : (gatherRun P inp).batches.flatten =
      (bufStage P inp).1 ++ (mrStage P inp).1.1 ++ (recStage P inp).1.flatten := by
    rw [gatherRun_batches]
    simp only [List.flatten_append, flatten_guard, List.append_assoc]
  refine ⟨?_, ?_, ?_, ?_⟩
  · rw [gatherRun_seen]
    have hrec : (recStage P inp).2 = (mrStage P inp).1.2 := by
      cases hf : P.enableFileRec with
      | false => simp [recStage, hf]
      | true =>
        have h := (gatherRec_chain P.chunkSize P.dedup P.showSourcePrefix
          (mrStage P inp).1.2 (walkRes P inp).1 (walkRes P inp).2.1).2
        rw [show (recStage P inp).2 = (gatherRec P.chunkSize P.dedup
          P.showSourcePrefix (mrStage P inp).1.2 (walkRes P inp).1
          (walkRes P inp).2.1).2 from by simp [recStage, hf], h, hd]
        exact chainSeen_false _ _
    rw [hrec, hMf.2, hBf.2]
  · intro k hb hk
    have hkin : k ∈ (bufStage P inp).1.map itemKey := by
      rw [hBf.1]
      simpa [effBufKeys, hb] using hk
    obtain ⟨it, hit, hkey⟩ := List.mem_map.mp hkin
    refine ⟨it, ?_, bufStage_origin P inp it hit, hkey⟩
    rw [hout]
    exact List.mem_append_left _ (List.mem_append_left _ hit)
  · intro k hm hk
    have hkin : k ∈ (mrStage P inp).1.1.map itemKey := by
      rw [hMf.1]
      simpa [effMrKeys, hm] using hk
    obtain ⟨it, hit, hkey⟩ := List.mem_map.mp hkin
    refine ⟨it, ?_, mrStage_origin P inp it hit, hkey⟩
    rw [hout]
    exact List.mem_append_left _ (List.mem_append_right _ hit)
  · intro k hf hoc hk
    have hoc2 : (walkRes P inp).2.1 = .done := by
      have hw := gatherRun_walkOutcome P inp
      rw [hoc, hf] at hw
      simpa using hw.symm
    have hrecflat : (recStage P inp).1.flatten.map itemKey =
        (walkRes P inp).1.flatten.map itemKey := by
      rw [show (recStage P inp).1 = (gatherRec P.chunkSize P.dedup
        P.showSourcePrefix (mrStage P inp).1.2 (walkRes P inp).1
        (walkRes P inp).2.1).1 from by simp [recStage, hf]]
      rw [hoc2, hd, gatherRec_done_flatten]
      exact chainBatches_false_keys P.showSourcePrefix (mrStage P inp).1.2
        (walkRes P inp).1
    have hkin : k ∈ (recStage P inp).1.flatten.map itemKey := by
      rw [hrecflat]
      exact hk
    obtain ⟨it, hit, hkey⟩ := List.mem_map.mp hkin
    refine ⟨it, ?_, (recStage_items P inp it hit).1, hkey⟩
    rw [hout]
    exact List.mem_append_right _ hit

/-- C9: no delivered batch is empty when the configured base chunk size is
positive: the buffer and MRU forward steps are skipped for empty filtered
results, and the walker path only enqueues accumulations that reached the
(positive) threshold, or a non-empty final leftover. -/
theorem c9_no_empty_batch (P : Params) (inp : RunInput)
    (hcs : 1 ≤ P.chunkSize) :
    ∀ b ∈ (gatherRun P inp).batches, b ≠ [] := by
  intro b hb
  rw [gatherRun_batches] at hb
  rcases List.mem_append.mp hb with h2 | hrec
  · rcases List.mem_append.mp h2 with hbuf | hmr
    · by_cases he : (bufStage P inp).1.isEmpty
      · simp [he] at hbuf
      · simp only [if_neg he, List.mem_singleton] at hbuf
        subst hbuf
        exact fun hc => he (by simp [hc])
    · by_cases he : (mrStage P inp).1.1.isEmpty
      · simp [he] at hmr
      · simp only [if_neg he, List.mem_singleton] at hmr
        subst hmr
        exact fun hc => he (by simp [hc])
  · cases hf : P.enableFileRec with
    | false => simp [recStage, hf] at hrec
    | true =>
      refine gatherRec_nonempty P.chunkSize P.dedup P.showSourcePrefix
        (mrStage P inp).1.2 (walkRes P inp).1 (walkRes P inp).2.1 hcs b ?_
      simpa [recStage, hf] using hrec

/-! ## One-step walker unfoldings -/

theorem abortedSig_none (cfg : WalkCfg) (hna : cfg.abortAt = none) (s : Nat) :
    abortedSig cfg s = false := by
  simp [abortedSig, hna]

/-- A directory whose listing fails with PermissionDenied at once yields
nothing and ends its activation normally (the catch absorbs the error). -/
theorem walkDir_permDenied (cfg : WalkCfg) (dir : String) (steps : Nat)
    (hna : cfg.abortAt = none) :
    walkDir cfg dir (.node .nil (some true)) steps = ([], .done, steps + 1) := by
  rw [walkDir.eq_def]
  simp only []
  rw [walkEntries.eq_def]
  simp [abortedSig_none cfg hna]

/-- A directory whose listing fails with any other error yields nothing and
ends its activation with the propagating error. -/
theorem walkDir_otherErr (cfg : WalkCfg) (dir : String) (steps : Nat)
    (hna : cfg.abortAt = none) :
    walkDir cfg dir (.node .nil (some false)) steps = ([], .err, steps + 1) := by
  rw [walkDir.eq_def]
  simp only []
  rw [walkEntries.eq_def]
  simp [abortedSig_none cfg hna]

theorem walkEntries_nil_none (cfg : WalkCfg) (dir : String) (chunk : List Item)
    (steps : Nat) (hna : cfg.abortAt = none) :
    walkEntries cfg dir .nil none chunk steps =
      (if chunk.isEmpty then [] else [chunk], .done, steps + 1) := by
  rw [walkEntries.eq_def]
  simp [abortedSig_none cfg hna]

/-- The walker's handling of one entry that stats as a non-directory: it is
appended to the pending chunk as a file item and the walker moves on — its
subtree is never read. -/
theorem walkEntries_fileStep (cfg : WalkCfg) (dir name : String) (meta : EntryMeta)
    (sub : FSTree) (rest : FSEntries) (tailErr : Option Bool) (chunk : List Item)
    (steps : Nat) (hna : cfg.abortAt = none) (stat : StatInfo)
    (hstat : readStat meta cfg.expand = some stat) (hdir : stat.isDirectory = false) :
    walkEntries cfg dir (.cons name meta sub rest) tailErr chunk steps =
      (if (chunk ++ [mkRecItem cfg.root (joinPath dir name)]).length ≥ cfg.chunkSize then
        ((chunk ++ [mkRecItem cfg.root (joinPath dir name)]) ::
            (walkEntries cfg dir rest tailErr [] (steps + 1)).1,
          (walkEntries cfg dir rest tailErr [] (steps + 1)).2)
      else walkEntries cfg dir rest tailErr
        (chunk ++ [mkRecItem cfg.root (joinPath dir name)]) (steps + 1)) := by
  rw [walkEntries.eq_def]
  simp [abortedSig_none cfg hna, hstat, hdir]

/-- The walker's handling of one directory entry that is neither ignored
nor skipped as a symlink loop: it recurses, forwards the child's batches,
and continues with the siblings only when the child ended normally. -/
theorem walkEntries_dirStep (cfg : WalkCfg) (dir name : String) (meta : EntryMeta)
    (sub : FSTree) (rest : FSEntries) (tailErr : Option Bool) (chunk : List Item)
    (steps : Nat) (hna : cfg.abortAt = none) (stat : StatInfo)
    (hstat : readStat meta cfg.expand = some stat) (hdir : stat.isDirectory = true)
    (hign : name ∉ cfg.ignored)
    (hloop : stat.isSymlink = false ∨
      jsIncludes (joinPath dir name) meta.realPath = false) :
    walkEntries cfg dir (.cons name meta sub rest) tailErr chunk steps =
      (match (walkDir cfg (joinPath dir name) sub (steps + 1)).2.1 with
        | .done =>
          ((walkDir cfg (joinPath dir name) sub (steps + 1)).1 ++
              (walkEntries cfg dir rest tailErr chunk
                (walkDir cfg (joinPath dir name) sub (steps + 1)).2.2).1,
            (walkEntries cfg dir rest tailErr chunk
              (walkDir cfg (joinPath dir name) sub (steps + 1)).2.2).2)
        | oc => ((walkDir cfg (joinPath dir name) sub (steps + 1)).1, oc,
            (walkDir cfg (joinPath dir name) sub (steps + 1)).2.2)) := by
  rw [walkEntries.eq_def]
  rcases hloop with hl | hl <;>
    simp [abortedSig_none cfg hna, hstat, hdir, hign, hl]

/-- The walker's handling of one directory entry whose traversal would
re-enter the path it was reached by (the symlink-loop test): skipped, the
subtree never read. -/
theorem walkEntries_loopSkip (cfg : WalkCfg) (dir name : String) (meta : EntryMeta)
    (sub : FSTree) (rest : FSEntries) (tailErr : Option Bool) (chunk : List Item)
    (steps : Nat) (hna : cfg.abortAt = none) (stat : StatInfo)
    (hstat : readStat meta cfg.expand = some stat) (hdir : stat.isDirectory = true)
    (hign : name ∉ cfg.ignored) (hsym : stat.isSymlink = true)
    (hinc : jsIncludes (joinPath dir name) meta.realPath = true) :
    walkEntries cfg dir (.cons name meta sub rest) tailErr chunk steps =
      walkEntries cfg dir rest tailErr chunk (steps + 1) := by
  rw [walkEntries.eq_def]
  simp [abortedSig_none cfg hna, hstat, hdir, hign, hsym, hinc]

/-- A directory holding exactly one entry that stats as a non-directory:
one single-item batch, normal end, two steps — whatever tree hangs below
the entry, since the walker never reads it. -/
theorem walkDir_singleFile (cfg : WalkCfg) (dir fname : String) (fmeta : EntryMeta)
    (fsub : FSTree) (steps : Nat) (hna : cfg.abortAt = none) (stat : StatInfo)
    (hstat : readStat fmeta cfg.expand = some stat) (hdir : stat.isDirectory = false) :
    walkDir cfg dir (.node (.cons fname fmeta fsub .nil) none) steps =
      ([[mkRecItem cfg.root (joinPath dir fname)]], .done, steps + 2) := by
  rw [walkDir.eq_def]
  simp only []
  rw [walkEntries_fileStep cfg dir fname fmeta fsub .nil none [] steps hna stat hstat hdir]
  rw [walkEntries_nil_none cfg dir [] (steps + 1) hna]
  rw [walkEntries_nil_none cfg dir ([] ++ [mkRecItem cfg.root (joinPath dir fname)])
    (steps + 1) hna]
  by_cases hge : (([] : List Item) ++ [mkRecItem cfg.root (joinPath dir fname)]).length ≥
      cfg.chunkSize
  · simp [hge]
  · simp [hge]

/-- C4: a PermissionDenied raised while reading a directory ends traversal
of that directory subtree only: the subtree yields nothing, the activation
ends normally, and the parent continues with the remaining siblings with
its pending chunk intact; any other error while reading a directory yields
nothing further, skips the siblings, and propagates err to the caller
(already-yielded batches of the surrounding walk stand, being outside this
activation's result). -/
theorem c4_perm_denied_subtree_only (cfg : WalkCfg) (dir name : String)
    (meta : EntryMeta) (rest : FSEntries) (tailErr : Option Bool)
    (chunk : List Item) (steps : Nat) (hna : cfg.abortAt = none)
    (stat : StatInfo) (hstat : readStat meta cfg.expand = some stat)
    (hdir : stat.isDirectory = true) (hign : name ∉ cfg.ignored)
    (hloop : stat.isSymlink = false ∨
      jsIncludes (joinPath dir name) meta.realPath = false) :
    (walkDir cfg (joinPath dir name) (.node .nil (some true)) (steps + 1) =
      ([], .done, steps + 2)) ∧
    (walkEntries cfg dir (.cons name meta (.node .nil (some true)) rest)
        tailErr chunk steps =
      walkEntries cfg dir rest tailErr chunk (steps + 2)) ∧
    (walkEntries cfg dir (.cons name meta (.node .nil (some false)) rest)
        tailErr chunk steps =
      ([], .err, steps + 2)) := by
  have h1 := walkDir_permDenied cfg (joinPath dir name) (steps + 1) hna
  refine ⟨h1, ?_, ?_⟩
  · rw [walkEntries_dirStep cfg dir name meta _ rest tailErr chunk steps hna stat
      hstat hdir hign hloop]
    rw [h1]
    simp
  · rw [walkEntries_dirStep cfg dir name meta _ rest tailErr chunk steps hna stat
      hstat hdir hign hloop]
    rw [walkDir_otherErr cfg (joinPath dir name) (steps + 1) hna]

/-- C10: with expandSymbolicLink off the walker's metadata is the bare
lstat, which reports a symbolic link as a non-directory, so a symlink
entry — whatever directory tree hangs behind it — is emitted as a file
item with isDirectory = false and is never recursed into; in particular
the symlink-loop test, which needs isSymlink and isDirectory at once, can
not fire with expansion off. -/
theorem c10_symlink_not_expanded_is_file (cfg : WalkCfg) (dir name : String)
    (meta : EntryMeta) (sub : FSTree) (steps : Nat) (hna : cfg.abortAt = none)
    (hexp : cfg.expand = false) (l : StatInfo) (hl : meta.lstat = some l)
    (hsym : l.isSymlink = true) (hdirl : l.isDirectory = false) :
    (walkDir cfg dir (.node (.cons name meta sub .nil) none) steps =
      ([[mkRecItem cfg.root (joinPath dir name)]], .done, steps + 2)) ∧
    (readStat meta cfg.expand = some l) ∧
    (mkRecItem cfg.root (joinPath dir name)).isDirectory = false := by
  have hstat : readStat meta cfg.expand = some l := by
    rw [hexp]
    simp [readStat, hl]
  exact ⟨walkDir_singleFile cfg dir name meta sub steps hna l hstat hdirl,
    hstat, rfl⟩

/-- The walker configuration of the C3 counterexample: expansion on, no
ignored names, base chunk size 1, never canceled. -/
def c3cfg : WalkCfg :=
  { root := "/a/b"
    ignored := []
    chunkSize := 1
    expand := true
    abortAt := none }

/-- The metadata of the /a/b/link entry of the C3 counterexample: a
symlink whose followed stat is a directory and whose real path is /b. -/
def c3meta : EntryMeta :=
  { lstat := some ⟨false, true⟩
    statFollowed := some ⟨true, false⟩
    realPath := "/b" }

/-- The C3 counterexample tree: /a/b/link is a symlink directory holding
one regular file f. -/
def c3tree : FSTree :=
  .node (.cons "link" c3meta
    (.node (.cons "f" ⟨some ⟨false, false⟩, none, ""⟩ (.node .nil none) .nil) none)
    .nil) none

/-- C3 (counterexample): with symlink expansion on, a symlink directory
reached at /a/b/link resolving to the real path /b is skipped by the
walker — the file f below it is never delivered — although /b is neither a
prefix of /a/b/link nor equal to it; the code's test is substring
occurrence, which /b passes inside /a/b/link. -/
theorem c3_counterexample :
    (walkDir c3cfg "/a/b" c3tree 0).1 = [] ∧
    readStat ⟨some ⟨false, true⟩, some ⟨true, false⟩, "/b"⟩ true = some ⟨true, true⟩ ∧
    jsIncludes "/a/b/link" "/b" = true ∧
    "/b".data.isPrefixOf "/a/b/link".data = false ∧
    "/b" ≠ "/a/b/link" := by
  refine ⟨by decide, by decide, by decide, by decide, by decide⟩

/-- C3 (amended): during the recursive walk, a directory entry reached via
a symbolic link is skipped (not recursed into) exactly when its resolved
real path occurs as a contiguous substring of the path used to reach it —
the JS includes test — which covers, but is not limited to, the
ancestor-re-entry (path-prefix) case: when the real path occurs in the
reached path the walk's result does not depend on the subtree at all, and
when it does not occur the walker recurses and delivers the subtree's
files. -/
theorem c3_symlink_skip_iff_substring (cfg : WalkCfg) (dir name : String)
    (meta : EntryMeta) (steps : Nat) (hna : cfg.abortAt = none) (stat : StatInfo)
    (hstat : readStat meta cfg.expand = some stat) (hdir : stat.isDirectory = true)
    (hsym : stat.isSymlink = true) (hign : name ∉ cfg.ignored) :
    (jsIncludes (joinPath dir name) meta.realPath = true →
      ∀ sub sub' : FSTree,
        walkDir cfg dir (.node (.cons name meta sub .nil) none) steps =
          walkDir cfg dir (.node (.cons name meta sub' .nil) none) steps) ∧
    (jsIncludes (joinPath dir name) meta.realPath = false →
      ∀ fname : String,
        walkDir cfg dir (.node (.cons name meta
            (.node (.cons fname ⟨some ⟨false, false⟩, none, ""⟩ (.node .nil none) .nil)
              none) .nil) none) steps =
          ([[mkRecItem cfg.root (joinPath (joinPath dir name) fname)]], .done,
            steps + 4)) := by
  constructor
  · intro hinc sub sub'
    rw [walkDir.eq_def]
    simp only []
    rw [walkEntries_loopSkip cfg dir name meta sub .nil none [] steps hna stat
      hstat hdir hign hsym hinc]
    rw [walkDir.eq_def]
    simp only []
    rw [walkEntries_loopSkip cfg dir name meta sub' .nil none [] steps hna stat
      hstat hdir hign hsym hinc]
  · intro hinc fname
    have hfstat : readStat (⟨some ⟨false, false⟩, none, ""⟩ : EntryMeta)
        cfg.expand = some ⟨false, false⟩ := by
      simp [readStat]
    have hchild := walkDir_singleFile cfg (joinPath dir name) fname
      ⟨some ⟨false, false⟩, none, ""⟩ (.node .nil none) (steps + 1) hna
      ⟨false, false⟩ hfstat rfl
    rw [walkDir.eq_def]
    simp only []
    rw [walkEntries_dirStep cfg dir name meta _ .nil none [] steps hna stat
      hstat hdir hign (Or.inr hinc)]
    rw [hchild]
    rw [walkEntries_nil_none cfg dir [] (steps + 3) hna]
    simp

/-! ## Concrete runs: the C6 failing input and the witnesses -/

/-- Parameters of the C6 run: only the walker enabled, base chunk size 1,
no decoration. -/
def c6P : Params :=
  { defaultParams with
      enableBuffer := false
      enableMr := false
      chunkSize := 1
      showSourcePrefix := false }

/-- Three plain files under the root. -/
def c6tree : FSTree :=
  .node (.cons "f1.txt" ⟨some ⟨false, false⟩, none, ""⟩ (.node .nil none)
    (.cons "f2.txt" ⟨some ⟨false, false⟩, none, ""⟩ (.node .nil none)
      (.cons "f3.txt" ⟨some ⟨false, false⟩, none, ""⟩ (.node .nil none) .nil))) none

/-- The C6 failing input: the consumer cancels after the first
directory-entry step, with the platform-default abort reason (a
DOMException named AbortError). -/
def c6Input : RunInput :=
  { bufinfo := ⟨"/r", 0, []⟩
    ctxBufNr := 0
    mrResponse := none
    tree := c6tree
    rootPath := "/r"
    abortAt := some 1
    abortErrName := defaultAbortErrorName
    fsErrName := "NotFound" }

/-- C6 (code bug): after the consumer cancels, the walker stops within one
directory-entry step (only the first of the three files is delivered, and
that batch stands), the signal stays aborted and the run closes — but the
termination is not silent: the catch ignores only errors whose name
contains "AbortReason", and the platform-default abort reason is named
"AbortError", so the cancellation is reported through console.error,
against both the spec and the code's own "Ignore abort" comment. -/
theorem c6_cancel_reported :
    (gatherRun c6P c6Input).batches = [[mkRecItem "/r" "/r/f1.txt"]] ∧
      (gatherRun c6P c6Input).walkOutcome = .aborted ∧
      (gatherRun c6P c6Input).errorLogged = true ∧
      isIgnoredAbortName defaultAbortErrorName = false := by
  refine ⟨by decide, by decide, by decide, by decide⟩

/-- A small filesystem: three plain files a.txt, m.txt, w.txt. -/
def exTree : FSTree :=
  .node (.cons "a.txt" ⟨some ⟨false, false⟩, none, ""⟩ (.node .nil none)
    (.cons "m.txt" ⟨some ⟨false, false⟩, none, ""⟩ (.node .nil none)
      (.cons "w.txt" ⟨some ⟨false, false⟩, none, ""⟩ (.node .nil none) .nil))) none

/-- A buffer list: one listed named buffer on /r/a.txt, one unlisted. -/
def exBufinfo : GetBufInfoReturn :=
  { currentDir := "/r"
    alternateBufNr := 2
    buffers := [⟨1, false, 10, true, "/r/a.txt", ""⟩,
      ⟨3, true, 7, false, "/r/x.txt", ""⟩] }

/-- Default parameters with base chunk size 1. -/
def exP : Params := { defaultParams with chunkSize := 1 }

/-- A full, uncanceled run: buffer holds /r/a.txt, the MRU list repeats it
and adds /r/m.txt, the walk finds all three files. -/
def exInput : RunInput :=
  { bufinfo := exBufinfo
    ctxBufNr := 1
    mrResponse := some ["/r/a.txt", "/r/m.txt"]
    tree := exTree
    rootPath := "/r"
    abortAt := none
    abortErrName := defaultAbortErrorName
    fsErrName := "NotFound" }

/-- The same run with the MRU dispatch failing. -/
def exInputMrFail : RunInput :=
  { exInput with mrResponse := none }

/-- Parameters with dedup disabled. -/
def exP8 : Params := { exP with dedup := false }

theorem c1_dedup_unique_witness :
    exP.dedup = true ∧
      (((gatherRun exP exInput).batches.flatten.map itemKey).Nodup ∧
        ∀ it ∈ (gatherRun exP exInput).batches.flatten,
          (it.origin = .mru → exP.enableBuffer = true →
            itemKey it ∉ bufCandKeys exInput.bufinfo exInput.ctxBufNr exP.bufferOrderby) ∧
          (it.origin = .walk →
            (exP.enableBuffer = true →
              itemKey it ∉ bufCandKeys exInput.bufinfo exInput.ctxBufNr exP.bufferOrderby) ∧
            (exP.enableMr = true → itemKey it ∉ mrKeysOf exInput.mrResponse))) :=
  ⟨rfl, c1_dedup_unique exP exInput rfl⟩

theorem c2_priority_order_witness :
    exP.enableBuffer = true ∧ exP.enableMr = true ∧ exP.enableFileRec = true ∧
      (gatherRun exP exInput).batches.flatten.Pairwise
        (fun a b => originRank a.origin ≤ originRank b.origin) :=
  ⟨rfl, rfl, rfl, c2_priority_order exP exInput rfl rfl rfl⟩

/-- The walker configuration of the C4 witness. -/
def c4cfg : WalkCfg :=
  { root := "/r"
    ignored := [".git"]
    chunkSize := 2
    expand := false
    abortAt := none }

/-- A plain (non-symlink) directory entry. -/
def c4meta : EntryMeta :=
  { lstat := some ⟨true, false⟩
    statFollowed := none
    realPath := "/r/sub" }

theorem c4_perm_denied_subtree_only_witness :
    c4cfg.abortAt = none ∧
      readStat c4meta c4cfg.expand = some ⟨true, false⟩ ∧
      ((walkDir c4cfg (joinPath "/r" "sub") (.node .nil (some true)) 1 =
          ([], .done, 2)) ∧
        (walkEntries c4cfg "/r" (.cons "sub" c4meta (.node .nil (some true)) .nil)
            none [] 0 =
          walkEntries c4cfg "/r" .nil none [] 2) ∧
        (walkEntries c4cfg "/r" (.cons "sub" c4meta (.node .nil (some false)) .nil)
            none [] 0 =
          ([], .err, 2))) :=
  ⟨rfl, by decide,
    c4_perm_denied_subtree_only c4cfg "/r" "sub" c4meta .nil none [] 0 rfl
      ⟨true, false⟩ (by decide) rfl (by decide) (Or.inl rfl)⟩

theorem c5_chunk_emitter_refines_witness :
    (gatherRec 3 true true [] [[mkRecItem "/r" "/r/f1.txt"],
        [mkRecItem "/r" "/r/f2.txt"]] .done).1 =
      emitterSpec 3 (chainBatches true true [] [[mkRecItem "/r" "/r/f1.txt"],
        [mkRecItem "/r" "/r/f2.txt"]]) :=
  c5_chunk_emitter_refines 3 true true []
    [[mkRecItem "/r" "/r/f1.txt"], [mkRecItem "/r" "/r/f2.txt"]]

theorem c7_mr_failure_isolated_witness :
    exInputMrFail.mrResponse = none ∧
      ((gatherRun exP exInputMrFail).batches =
          (gatherRun { exP with enableMr := false } exInputMrFail).batches ∧
        (gatherRun exP exInputMrFail).seen =
          (gatherRun { exP with enableMr := false } exInputMrFail).seen ∧
        (gatherRun exP exInputMrFail).walkOutcome =
          (gatherRun { exP with enableMr := false } exInputMrFail).walkOutcome ∧
        (exP.enableMr = true → (gatherRun exP exInputMrFail).mrLogged = true) ∧
        mrTimeoutMs = 1000) :=
  ⟨rfl, c7_mr_failure_isolated exP exInputMrFail rfl⟩

theorem c8_dedup_off_passthrough_witness :
    exP8.dedup = false ∧
      ((gatherRun exP8 exInput).seen = [] ∧
        (∀ k, exP8.enableBuffer = true →
          k ∈ bufCandKeys exInput.bufinfo exInput.ctxBufNr exP8.bufferOrderby →
          ∃ it ∈ (gatherRun exP8 exInput).batches.flatten,
            it.origin = .buf ∧ itemKey it = k) ∧
        (∀ k, exP8.enableMr = true → k ∈ mrKeysOf exInput.mrResponse →
          ∃ it ∈ (gatherRun exP8 exInput).batches.flatten,
            it.origin = .mru ∧ itemKey it = k) ∧
        (∀ k, exP8.enableFileRec = true →
          (gatherRun exP8 exInput).walkOutcome = .done →
          k ∈ (walkRes exP8 exInput).1.flatten.map itemKey →
          ∃ it ∈ (gatherRun exP8 exInput).batches.flatten,
            it.origin = .walk ∧ itemKey it = k)) :=
  ⟨rfl, c8_dedup_off_passthrough exP8 exInput rfl⟩

theorem c9_no_empty_batch_witness :
    1 ≤ exP.chunkSize ∧ ∀ b ∈ (gatherRun exP exInput).batches, b ≠ [] :=
  ⟨by decide, c9_no_empty_batch exP exInput (by decide)⟩

/-- The C10 witness entry: a symlink whose lstat is a non-directory but
whose target (never consulted) is a directory holding a file. -/
def c10meta : EntryMeta :=
  { lstat := some ⟨false, true⟩
    statFollowed := some ⟨true, false⟩
    realPath := "/r" }

def c10sub : FSTree :=
  .node (.cons "hidden.txt" ⟨some ⟨false, false⟩, none, ""⟩ (.node .nil none) .nil) none

theorem c10_symlink_not_expanded_is_file_witness :
    c4cfg.abortAt = none ∧ c4cfg.expand = false ∧
      c10meta.lstat = some ⟨false, true⟩ ∧
      ((walkDir c4cfg "/r" (.node (.cons "link" c10meta c10sub .nil) none) 0 =
          ([[mkRecItem c4cfg.root (joinPath "/r" "link")]], .done, 2)) ∧
        (readStat c10meta c4cfg.expand = some ⟨false, true⟩) ∧
        (mkRecItem c4cfg.root (joinPath "/r" "link")).isDirectory = false) :=
  ⟨rfl, rfl, rfl,
    c10_symlink_not_expanded_is_file c4cfg "/r" "link" c10meta c10sub 0 rfl rfl
      ⟨false, true⟩ rfl rfl rfl⟩

theorem c3_symlink_skip_iff_substring_witness :
    c3cfg.abortAt = none ∧ readStat c3meta c3cfg.expand = some ⟨true, true⟩ ∧
      ((jsIncludes (joinPath "/a/b" "link") c3meta.realPath = true →
        ∀ sub sub' : FSTree,
          walkDir c3cfg "/a/b" (.node (.cons "link" c3meta sub .nil) none) 0 =
            walkDir c3cfg "/a/b" (.node (.cons "link" c3meta sub' .nil) none) 0) ∧
      (jsIncludes (joinPath "/a/b" "link") c3meta.realPath = false →
        ∀ fname : String,
          walkDir c3cfg "/a/b" (.node (.cons "link" c3meta
              (.node (.cons fname ⟨some ⟨false, false⟩, none, ""⟩ (.node .nil none) .nil)
                none) .nil) none) 0 =
            ([[mkRecItem c3cfg.root (joinPath (joinPath "/a/b" "link") fname)]], .done,
              4))) :=
  ⟨rfl, by decide,
    c3_symlink_skip_iff_substring c3cfg "/a/b" "link" c3meta 0 rfl ⟨true, true⟩
      (by decide) rfl rfl (by decide)⟩

end TriSource
